import Mathlib

/-!
Verification of the multi-source literature-search core (orchestrator,
deduplicator, ranker) of the litsearchapp repository, as a shallow embedding
in Lean.  The Python sources embedded here are `src/models.py`,
`src/search/deduplicator.py` and `src/search/orchestrator.py`.

Modelling conventions:
* Python `Optional[str]` fields become `Option String`; Python truthiness of
  such a field (`if paper.doi:`) is `strTruthy`, which is false for `None`
  and for the empty string.
* Python `float` values (relevance scores) are idealised as real numbers;
  the difflib similarity ratio, a quotient of integers, is modelled exactly
  as a rational number.
* The `retrieved_at` wall-clock timestamp field is not modelled (it is never
  read by the code under specification).
* Character classes of the regex `[^\w\s]` and of `str.lower()` are modelled
  over the ASCII range (`Char.isAlphanum`, `Char.toLower`); the titles in the
  specification are ASCII.
-/

namespace LitSearch

/-- The `Source` enumeration of `models.py` (all seven members). -/
inductive Source where
  | pubmed
  | arxiv
  | crossref
  | google_scholar
  | web_of_science
  | semantic_scholar
  | pmc
deriving DecidableEq, Repr

/-- The string value of each `Source` member, as in `models.py`. -/
def Source.value : Source → String
  | .pubmed => "pubmed"
  | .arxiv => "arxiv"
  | .crossref => "crossref"
  | .google_scholar => "scholar"
  | .web_of_science => "wos"
  | .semantic_scholar => "semantic_scholar"
  | .pmc => "pmc"

/-- The `PaperType` enumeration of `models.py`. -/
inductive PaperType where
  | article
  | review
  | preprint
  | conference
  | book_chapter
  | thesis
  | unknown
deriving DecidableEq, Repr

/-- The `Author` model of `models.py`. -/
structure Author where
  name : String
  first_name : Option String := none
  last_name : Option String := none
  affiliation : Option String := none
  orcid : Option String := none
deriving DecidableEq, Repr

/-- The `Paper` model of `models.py`.  URL fields are strings (pydantic
`HttpUrl` values are never empty, so their truthiness is `Option.isSome`). -/
structure Paper where
  title : String
  doi : Option String := none
  pmid : Option String := none
  pmcid : Option String := none
  arxiv_id : Option String := none
  authors : List Author := []
  year : Option Int := none
  journal : Option String := none
  volume : Option String := none
  issue : Option String := none
  pages : Option String := none
  abstract : Option String := none
  keywords : List String := []
  citations : Nat := 0
  altmetric_score : Option ℝ := none
  relevance_score : Option ℝ := none
  url : Option String := none
  pdf_url : Option String := none
  paper_type : PaperType := .unknown
  sources : List Source := []
  local_pdf_path : Option String := none

/-- Python truthiness of an `Optional[str]`: `None` and `""` are falsy. -/
def strTruthy : Option String → Bool
  | none => false
  | some s => !s.isEmpty

/-- Append to an ordered list only the elements not already present, keeping
first-seen order; this is the loop used by `_merge_into` for `sources` and
`keywords`. -/
def orderedUnion {α : Type} [DecidableEq α] (xs ys : List α) : List α :=
  ys.foldl (fun acc y => if y ∈ acc then acc else acc ++ [y]) xs

/-- Scalar-identifier fill of `_merge_into`: the target keeps its value when
truthy, otherwise takes the other paper's value when that one is truthy. -/
def prefFill (t b : Option String) : Option String :=
  if strTruthy t then t else if strTruthy b then b else t

/-- URL fill of `_merge_into` (`HttpUrl` truthiness is presence). -/
def urlFill (t b : Option String) : Option String :=
  if t.isSome then t else if b.isSome then b else t

/-- Abstract merge of `_merge_into`: take the other paper's abstract when the
target's is falsy, or when the other's is truthy and strictly longer. -/
def mergeAbstract (t b : Option String) : Option String :=
  if !(strTruthy t) && strTruthy b then b
  else if strTruthy b && (b.getD "").length > (t.getD "").length then b
  else t

/-- One step of `Deduplicator._merge_into`: fold the fields of `paper` into
`target`, field by field exactly as in the Python body. -/
def mergeInto (target paper : Paper) : Paper :=
  { target with
    sources := orderedUnion target.sources paper.sources
    abstract := mergeAbstract target.abstract paper.abstract
    doi := prefFill target.doi paper.doi
    pmid := prefFill target.pmid paper.pmid
    pmcid := prefFill target.pmcid paper.pmcid
    arxiv_id := prefFill target.arxiv_id paper.arxiv_id
    pdf_url := urlFill target.pdf_url paper.pdf_url
    url := urlFill target.url paper.url
    citations := max target.citations paper.citations
    keywords := orderedUnion target.keywords paper.keywords
    paper_type :=
      if target.paper_type = .unknown && !(paper.paper_type = .unknown) then paper.paper_type
      else target.paper_type
    authors :=
      if paper.authors.length > target.authors.length then paper.authors
      else target.authors }

/-- The `Deduplicator._merge_into(target, papers)` loop over a whole list. -/
def mergeIntoAll (target : Paper) (papers : List Paper) : Paper :=
  papers.foldl mergeInto target

/-- The `Deduplicator._merge_paper_group` method: the first paper of the group
is the base and every later member is folded into it.  (The group is never
empty; the `[]` case is an arbitrary inert value.) -/
def mergeGroup : List Paper → Paper
  | [] => { title := "" }
  | p :: rest => mergeIntoAll p rest

/-- Word characters of the regex class `\w` (ASCII model). -/
def isWordChar (c : Char) : Bool := c.isAlphanum || c = '_'

/-- Split a character list at whitespace characters (empty chunks included);
`acc` is the reversed current chunk. -/
def splitWsAux : List Char → List Char → List (List Char)
  | [], acc => [acc.reverse]
  | c :: rest, acc =>
    if c.isWhitespace then acc.reverse :: splitWsAux rest []
    else splitWsAux rest (c :: acc)

/-- Join character-list words with single spaces (Python `' '.join`). -/
def joinSpaces : List (List Char) → List Char
  | [] => []
  | [w] => w
  | w :: ws => w ++ ' ' :: joinSpaces ws

/-- The `Deduplicator._normalize_title` method: lowercase, replace every
character that is neither a word character nor whitespace by a space, then
split on whitespace (dropping empty chunks, as Python `str.split()` does) and
re-join with single spaces. -/
def normalizeTitle (title : String) : String :=
  let lowered := title.toList.map Char.toLower
  let spaced := lowered.map (fun c => if !(isWordChar c) && !(c.isWhitespace) then ' ' else c)
  ⟨joinSpaces ((splitWsAux spaced []).filter (fun w => !w.isEmpty))⟩

/-!
The difflib `SequenceMatcher` similarity ratio, transcribed from CPython's
`difflib.py` for the call pattern used by the deduplicator:
`SequenceMatcher(None, t1, t2).ratio()` (no user junk, `autojunk=True`).
With `isjunk=None` the junk set `bjunk` is empty, so the two junk-extension
loops of `find_longest_match` never fire and the two non-junk extension loops
have a vacuous junk test; `autojunk` removes "popular" elements (count above
`len(b) // 100 + 1`, only when `len(b) >= 200`) from the index `b2j`.
-/

/-- Ascending list of the positions of `c` in `b` (difflib's `b2j` chain). -/
def bIndices (b : List Char) (c : Char) : List Nat :=
  (List.range b.length).filter (fun j => b.getD j ' ' = c && j < b.length)

/-- The `autojunk` popularity test of `SequenceMatcher.__chain_b`. -/
def popularB (b : List Char) (c : Char) : Bool :=
  b.length ≥ 200 && (b.filter (fun x => x = c)).length > b.length / 100 + 1

/-- The index `b2j` after the autojunk purge: positions of `c` in `b`, or
nothing when `c` is popular. -/
def b2j (b : List Char) (c : Char) : List Nat :=
  if popularB b c then [] else bIndices b c

/-- The running state of `find_longest_match`: the previous row `j2len` of the
dynamic program and the best block found so far. -/
structure FLM where
  j2len : Nat → Nat
  besti : Nat
  bestj : Nat
  bestsize : Nat

/-- One outer iteration (one value of `i`) of the `find_longest_match` dynamic
program: walk the positions of `a[i]` inside `[blo, bhi)`, build the new row,
and update the best block.  Python's `j2len.get(j-1, 0)` at `j = 0` looks up
index `-1` and yields `0`, hence the explicit `j = 0` guard. -/
def flmRow (blo bhi i : Nat) (js : List Nat) (st : FLM) : FLM :=
  let js' := js.filter (fun j => blo ≤ j && j < bhi)
  let out := js'.foldl
    (fun (acc : (Nat → Nat) × Nat × Nat × Nat) j =>
      let k := (if j = 0 then 0 else st.j2len (j - 1)) + 1
      let row := fun j' => if j' = j then k else acc.1 j'
      if k > acc.2.2.2 then (row, i + 1 - k, j + 1 - k, k) else (row, acc.2))
    (fun _ => 0, st.besti, st.bestj, st.bestsize)
  ⟨out.1, out.2.1, out.2.2.1, out.2.2.2⟩

/-- The extension loop of `find_longest_match` that grows the best block
downwards (`while besti > alo and bestj > blo and a[besti-1] == b[bestj-1]`);
the junk test is vacuously true since `bjunk` is empty here.  The fuel is the
initial `besti`, which bounds the number of decrements. -/
def extendLower (a b : List Char) (alo blo : Nat) :
    Nat → Nat × Nat × Nat → Nat × Nat × Nat
  | 0, st => st
  | fuel + 1, (besti, bestj, bestsize) =>
    if besti > alo && bestj > blo && a.getD (besti - 1) ' ' == b.getD (bestj - 1) ' ' then
      extendLower a b alo blo fuel (besti - 1, bestj - 1, bestsize + 1)
    else (besti, bestj, bestsize)

/-- The extension loop of `find_longest_match` that grows the best block
upwards; the fuel `ahi` bounds the number of increments. -/
def extendUpper (a b : List Char) (ahi bhi : Nat) :
    Nat → Nat × Nat × Nat → Nat × Nat × Nat
  | 0, st => st
  | fuel + 1, (besti, bestj, bestsize) =>
    if besti + bestsize < ahi && bestj + bestsize < bhi
        && a.getD (besti + bestsize) ' ' == b.getD (bestj + bestsize) ' ' then
      extendUpper a b ahi bhi fuel (besti, bestj, bestsize + 1)
    else (besti, bestj, bestsize)

/-- difflib's `find_longest_match` over `a[alo:ahi]` and `b[blo:bhi]` for the
no-junk configuration: the dynamic program followed by the two (non-junk)
extension loops. -/
def findLongestMatch (a b : List Char) (alo ahi blo bhi : Nat) : Nat × Nat × Nat :=
  let st0 : FLM := ⟨fun _ => 0, alo, blo, 0⟩
  let stF := (List.range' alo (ahi - alo)).foldl
    (fun st i => flmRow blo bhi i (b2j b (a.getD i ' ')) st) st0
  let lo := extendLower a b alo blo stF.besti (stF.besti, stF.bestj, stF.bestsize)
  extendUpper a b ahi bhi ahi lo

/-- Total number of matched characters of `get_matching_blocks`, written as
the underlying divide-and-conquer recursion (the Python queue only reorders
independent sub-problems, and the final sort/collapse steps do not change the
sum of the block sizes).  The fuel, in every reachable call, exceeds the sum
of the interval lengths, which strictly decreases at each recursion. -/
def matchTotal (a b : List Char) : Nat → Nat → Nat → Nat → Nat → Nat
  | 0, _, _, _, _ => 0
  | fuel + 1, alo, ahi, blo, bhi =>
    let m := findLongestMatch a b alo ahi blo bhi
    if m.2.2 = 0 then 0
    else m.2.2
      + (if alo < m.1 && blo < m.2.1 then matchTotal a b fuel alo m.1 blo m.2.1 else 0)
      + (if m.1 + m.2.2 < ahi && m.2.1 + m.2.2 < bhi then
          matchTotal a b fuel (m.1 + m.2.2) ahi (m.2.1 + m.2.2) bhi else 0)

/-- difflib's `ratio()`: `2 * M / T` where `M` is the total matched length and
`T` the sum of the lengths (`1.0` when both are empty), as an exact rational. -/
def seqRatio (a b : List Char) : ℚ :=
  let total := a.length + b.length
  if total = 0 then 1
  else (2 * (matchTotal a b (total + 1) 0 a.length 0 b.length) : ℚ) / total

/-- The `Deduplicator._titles_similar` method: empty titles are never similar;
otherwise normalize both and test exact equality, then the similarity ratio
against the threshold. -/
def titlesSimilar (threshold : ℚ) (title1 title2 : String) : Bool :=
  if title1.isEmpty || title2.isEmpty then false
  else
    let t1 := normalizeTitle title1
    let t2 := normalizeTitle title2
    if t1 = t2 then true
    else decide (seqRatio t1.toList t2.toList ≥ threshold)

/-- The four identifier buckets built by the first loop of
`Deduplicator.deduplicate`; each index is an insertion-ordered dictionary. -/
structure Indexes where
  doi : List (String × List Paper) := []
  pmid : List (String × List Paper) := []
  arxiv : List (String × List Paper) := []
  noId : List Paper := []

/-- Python `dict.setdefault(key, []).append(p)`: append `p` to the group of
`k`, or add a new group at the end. -/
def dictAppend (idx : List (String × List Paper)) (k : String) (p : Paper) :
    List (String × List Paper) :=
  match idx with
  | [] => [(k, [p])]
  | (k', g) :: rest =>
    if k' = k then (k', g ++ [p]) :: rest else (k', g) :: dictAppend rest k p

/-- One iteration of the bucketing loop of `deduplicate`: the `elif` priority
chain DOI, then PMID, then arXiv id, else no identifier. -/
def indexStep (idx : Indexes) (p : Paper) : Indexes :=
  if strTruthy p.doi then { idx with doi := dictAppend idx.doi (p.doi.getD "") p }
  else if strTruthy p.pmid then { idx with pmid := dictAppend idx.pmid (p.pmid.getD "") p }
  else if strTruthy p.arxiv_id then { idx with arxiv := dictAppend idx.arxiv (p.arxiv_id.getD "") p }
  else { idx with noId := idx.noId ++ [p] }

/-- The bucketing loop of `deduplicate` over the whole input list. -/
def buildIndexes (papers : List Paper) : Indexes :=
  papers.foldl indexStep {}

/-- The DOI pass of `deduplicate`: merge each DOI group and claim its key. -/
def doiPass (idx : List (String × List Paper)) : List Paper × List String :=
  (idx.map (fun kg => mergeGroup kg.2), idx.map (fun kg => "doi:" ++ kg.1))

/-- The PMID pass of `deduplicate`: a group is merged and its key claimed
unless some member carries a DOI already claimed. -/
def pmidPass (idx : List (String × List Paper)) (processed0 : List String) :
    List Paper × List String :=
  idx.foldl
    (fun acc kg =>
      if kg.2.any (fun p => strTruthy p.doi && acc.2.contains ("doi:" ++ p.doi.getD "")) then acc
      else (acc.1 ++ [mergeGroup kg.2], acc.2 ++ ["pmid:" ++ kg.1]))
    ([], processed0)

/-- The arXiv pass of `deduplicate`: a group is merged and its key claimed
unless some member carries an already claimed DOI or PMID. -/
def arxivPass (idx : List (String × List Paper)) (processed0 : List String) :
    List Paper × List String :=
  idx.foldl
    (fun acc kg =>
      if kg.2.any (fun p =>
          (strTruthy p.doi && acc.2.contains ("doi:" ++ p.doi.getD ""))
          || (strTruthy p.pmid && acc.2.contains ("pmid:" ++ p.pmid.getD ""))) then acc
      else (acc.1 ++ [mergeGroup kg.2], acc.2 ++ ["arxiv:" ++ kg.1]))
    ([], processed0)

/-- Fuelled version of `Deduplicator._group_by_title_similarity`: the first
unprocessed paper leads a group of all later papers similar to it, and the
scan recurses on the rest.  This is the standard functional reading of the
index-and-processed-set loop of the Python method; the fuel (the list length)
always suffices because each step consumes at least the leader. -/
def groupByTitleAux (threshold : ℚ) : Nat → List Paper → List (List Paper)
  | 0, _ => []
  | _, [] => []
  | fuel + 1, p :: rest =>
    (p :: rest.filter (fun q => titlesSimilar threshold p.title q.title)) ::
      groupByTitleAux threshold fuel
        (rest.filter (fun q => !(titlesSimilar threshold p.title q.title)))

/-- The `Deduplicator._group_by_title_similarity` method. -/
def groupByTitleSimilarity (threshold : ℚ) (papers : List Paper) : List (List Paper) :=
  groupByTitleAux threshold papers.length papers

/-- One iteration of the no-identifier loop of `deduplicate`: a candidate
group is merged into the first already-produced paper with a similar title
(mutating that list entry), or appended as a new merged paper. -/
def noIdStep (threshold : ℚ) (merged : List Paper) (group : List Paper) : List Paper :=
  match group with
  | [] => merged
  | g0 :: _ =>
    match merged.findIdx? (fun pr => titlesSimilar threshold g0.title pr.title) with
    | some i =>
      match merged.get? i with
      | some tgt => merged.set i (mergeIntoAll tgt group)
      | none => merged
    | none => merged ++ [mergeGroup group]

/-- The `Deduplicator.deduplicate` method: bucket the papers, run the DOI,
PMID and arXiv passes over the evolving claimed-identifier set, then process
the no-identifier papers by title similarity. -/
def deduplicate (threshold : ℚ) (papers : List Paper) : List Paper :=
  if papers.isEmpty then []
  else
    let idx := buildIndexes papers
    let d := doiPass idx.doi
    let pm := pmidPass idx.pmid d.2
    let ax := arxivPass idx.arxiv pm.2
    let merged0 := d.1 ++ pm.1 ++ ax.1
    let groups := groupByTitleSimilarity threshold idx.noId
    groups.foldl (noIdStep threshold) merged0

/-- The default similarity threshold of `Deduplicator.__init__`. -/
def defaultThreshold : ℚ := 85 / 100

end LitSearch

namespace LitSearch

/-- The `SearchQuery` model of `models.py`. -/
structure SearchQuery where
  query : String
  sources : List Source := [.pubmed, .arxiv, .crossref]
  year_start : Option Int := none
  year_end : Option Int := none
  max_results : Nat := 50
  paper_types : Option (List PaperType) := none
  authors : Option (List String) := none
  journals : Option (List String) := none
  sort_by : String := "relevance"
  include_abstracts : Bool := true

/-- The `SearchResult` model of `models.py`; `errors` is the insertion-ordered
dictionary from source value to error message, and the wall-clock
`search_time` is not modelled (fixed at 0). -/
structure SearchResult where
  query : SearchQuery
  papers : List Paper
  total_found : Nat
  sources_searched : List Source
  search_time : ℝ := 0
  errors : List (String × String)

/-- Containment of `needle` as a contiguous substring of `haystack`
(Python's `term in text`); the empty needle is contained everywhere. -/
def containsSub (haystack needle : List Char) : Bool :=
  match haystack with
  | [] => needle.isEmpty
  | _ :: rest => needle.isPrefixOf haystack || containsSub rest needle

/-- Python substring test `needle in hay` on strings. -/
def strContains (hay needle : String) : Bool :=
  containsSub hay.toList needle.toList

/-- The distinct lowercase whitespace-separated terms of the query string
(`set(query.query.lower().split())`); only the member count of the set is
used, so the list order is irrelevant. -/
def queryTerms (q : String) : List String :=
  ((q.toLower.split (fun c => c.isWhitespace)).filter (fun t => !t.isEmpty)).dedup

/-- The relevance score computed per paper by `SearchOrchestrator._rank_papers`
(title and abstract term overlap, capped log-citation score, recency bonus,
per-source bonus, paper-type bonus), with `datetime.now().year` passed in as
`currentYear`. -/
noncomputable def rankScore (currentYear : Int) (query : SearchQuery) (paper : Paper) : ℝ :=
  let terms := queryTerms query.query
  let titleScore : ℝ :=
    ((terms.filter (fun t => strContains paper.title.toLower t)).length : ℝ) * 20
  let abstractScore : ℝ :=
    if strTruthy paper.abstract then
      ((terms.filter (fun t => strContains (paper.abstract.getD "").toLower t)).length : ℝ) * 5
    else 0
  let citationScore : ℝ :=
    if paper.citations > 0 then min 30 (5 * Real.logb 10 ((paper.citations : ℝ) + 1)) else 0
  let recencyScore : ℝ :=
    match paper.year with
    | none => 0
    | some y =>
      if y = 0 then 0
      else
        let yearsOld := currentYear - y
        if yearsOld ≤ 2 then 20
        else if yearsOld ≤ 5 then 15
        else if yearsOld ≤ 10 then 10
        else if yearsOld ≤ 20 then 5
        else 0
  let sourceScore : ℝ := (paper.sources.length : ℝ) * 10
  let typeScore : ℝ :=
    match query.paper_types with
    | none => 0
    | some ts => if ts ≠ [] ∧ paper.paper_type ∈ ts then 15 else 0
  titleScore + abstractScore + citationScore + recencyScore + sourceScore + typeScore

/-- Write the computed relevance score into the paper, as the loop body of
`_rank_papers` does. -/
noncomputable def assignScore (currentYear : Int) (query : SearchQuery) (paper : Paper) : Paper :=
  { paper with relevance_score := some (rankScore currentYear query paper) }

/-- The sort key of `_rank_papers` (`p.relevance_score or 0`). -/
noncomputable def scoreKey (p : Paper) : ℝ := p.relevance_score.getD 0

/-- The `SearchOrchestrator._rank_papers` method: score every paper, then sort
by descending relevance score.  Python's `sorted(..., reverse=True)` is a
stable descending sort, which is `mergeSort` with the comparator that keeps
the left element when its key is at least the right one's. -/
noncomputable def rankPapers (currentYear : Int) (query : SearchQuery) (papers : List Paper) :
    List Paper :=
  (papers.map (assignScore currentYear query)).mergeSort
    (fun a b => decide (scoreKey b ≤ scoreKey a))

/-- A search provider as seen by the orchestrator (§6 of the spec): its
`search` either returns a record list or fails with an exception message. -/
def Provider : Type := SearchQuery → Except String (List Paper)

/-- The orchestrator state: the source-to-provider registry built by
`SearchOrchestrator.__init__`. -/
structure SearchOrchestrator where
  providers : Source → Option Provider

/-- The five sources registered by `SearchOrchestrator.__init__`. -/
def registeredSources : List Source :=
  [.pubmed, .arxiv, .crossref, .google_scholar, .web_of_science]

/-- The `SearchOrchestrator._search_source` method: raises for an unregistered
source (unreachable from `search`, which dispatches only registered sources)
and wraps any provider exception in a new `Search failed:` exception. -/
def searchSource (O : SearchOrchestrator) (source : Source) (query : SearchQuery) :
    Except String (List Paper) :=
  match O.providers source with
  | none => .error ("Unknown source: " ++ source.value)
  | some provider =>
    match provider query with
    | .ok papers => .ok papers
    | .error e => .error ("Search failed: " ++ e)

/-- The sources actually submitted to the pool by `search`: requested sources
that have a registered provider, in request order.  A requested source with no
provider is silently skipped by the `if source in self.providers` guard. -/
def dispatchedSources (O : SearchOrchestrator) (query : SearchQuery) : List Source :=
  query.sources.filter (fun s => (O.providers s).isSome)

/-- Python dict assignment `d[k] = v`: update in place, or append a new key at
the end. -/
def dictSet {κ β : Type} [DecidableEq κ] (d : List (κ × β)) (k : κ) (v : β) : List (κ × β) :=
  match d with
  | [] => [(k, v)]
  | (k', v') :: rest => if k' = k then (k, v) :: rest else (k', v') :: dictSet rest k v

/-- The collection loop of `SearchOrchestrator.search`: as each unit completes
(the `order` list is the completion order of `as_completed`), record its
records in `results_by_source`, or on failure record the message in `errors`
and an empty record list. -/
def collect (O : SearchOrchestrator) (query : SearchQuery) (order : List Source) :
    List (Source × List Paper) × List (String × String) :=
  order.foldl
    (fun acc source =>
      match searchSource O source query with
      | .ok papers => (dictSet acc.1 source papers, acc.2)
      | .error e => (dictSet acc.1 source [], dictSet acc.2 source.value e))
    ([], [])

/-- The `SearchOrchestrator.search` method, parametrised by the completion
order of the concurrent units (a permutation of the dispatched sources) and
by the current year used by the ranker.  The body of the Python method cannot
raise: every per-provider exception is caught in the collection loop, so the
result is always `Except.ok`. -/
noncomputable def search (O : SearchOrchestrator) (query : SearchQuery) (order : List Source)
    (currentYear : Int) : Except String SearchResult :=
  .ok
    { query := query
      papers := rankPapers currentYear query (deduplicate defaultThreshold
        (((collect O query order).1.map Prod.snd).flatten))
      total_found := ((collect O query order).1.map (fun kv => kv.2.length)).sum
      sources_searched := (collect O query order).1.map Prod.fst
      search_time := 0
      errors := (collect O query order).2 }

end LitSearch

namespace LitSearch

/-- Two papers share the identifier extracted by `f` when both values are
truthy (non-null, non-empty) and equal. -/
def shareId (f : Paper → Option String) (a b : Paper) : Prop :=
  strTruthy (f a) = true ∧ strTruthy (f b) = true ∧ f a = f b

/-- The §3 uniqueness invariant as claimed: no two records of the list share
the same non-null DOI, the same non-null PMID, or the same non-null arXiv
id. -/
def uniqueIdentifiers (l : List Paper) : Prop :=
  l.Pairwise (fun a b =>
    ¬ shareId Paper.doi a b ∧ ¬ shareId Paper.pmid a b ∧ ¬ shareId Paper.arxiv_id a b)

/-- Record A of the chain-limitation scenario: DOI X. -/
def chainA : Paper := { title := "Alpha", doi := some "X", sources := [.pubmed] }

/-- Record B of the chain-limitation scenario: DOI X and PMID Y. -/
def chainB : Paper := { title := "Beta", doi := some "X", pmid := some "Y", sources := [.crossref] }

/-- Record C of the chain-limitation scenario: PMID Y, no DOI. -/
def chainC : Paper := { title := "Gamma", pmid := some "Y", sources := [.arxiv] }

end LitSearch

open LitSearch

/-- C4: for the chain input [A, B, C] with A: DOI X, B: DOI X and PMID Y,
C: PMID Y and no DOI, `deduplicate` returns exactly the two records
merge(A, B) and C — the documented non-transitive priority-chain behaviour,
with C left separate. -/
theorem C4_chain_limitation :
    deduplicate defaultThreshold [chainA, chainB, chainC] = [mergeInto chainA chainB, chainC]
      ∧ (deduplicate defaultThreshold [chainA, chainB, chainC]).length = 2 := by
  constructor <;> rfl

/-- C1, counterexample: on the chain input the deduplicated output violates
the claimed uniqueness invariant — the merged A+B record and the separate C
record both carry the non-null PMID Y. -/
theorem C1_counterexample :
    ¬ uniqueIdentifiers (deduplicate defaultThreshold [chainA, chainB, chainC]) := by
  intro h
  have hout : deduplicate defaultThreshold [chainA, chainB, chainC]
      = [mergeInto chainA chainB, chainC] := rfl
  rw [hout] at h
  rcases List.pairwise_cons.mp h with ⟨hAB, _⟩
  have := hAB chainC (by simp)
  exact this.2.1 ⟨rfl, rfl, rfl⟩

namespace LitSearch

/-- Modelled from the spec's field-merge policy wording: the union of two
lists preserving first-seen order. -/
def specFirstSeenUnion {α : Type} [DecidableEq α] (xs ys : List α) : List α :=
  (xs ++ ys).foldl (fun acc y => if y ∈ acc then acc else acc ++ [y]) []

/-- Modelled from the spec's field-merge policy wording: the abstract is
whichever of A and B is non-empty and longer (B only when it is non-empty and
either A is empty or B is strictly longer). -/
def specAbstract (a b : Option String) : Option String :=
  if strTruthy b = true ∧ (strTruthy a = false ∨ (b.getD "").length > (a.getD "").length)
  then b else a

/-- Modelled from the spec's field-merge policy wording: a scalar identifier
is filled from B only when A's is empty. -/
def specFill (a b : Option String) : Option String :=
  if strTruthy a = false ∧ strTruthy b = true then b else a

/-- Modelled from the spec's field-merge policy wording: a URL is filled from
B only when A has none. -/
def specUrlFill (a b : Option String) : Option String :=
  if a.isNone ∧ b.isSome then b else a

/-- Modelled from the spec's field-merge policy wording: the paper type is
A's when known, else B's. -/
def specPaperType (a b : PaperType) : PaperType :=
  if a ≠ .unknown then a else b

/-- The code's abstract merge coincides with the spec's wording. -/
theorem mergeAbstract_eq_spec (a b : Option String) :
    mergeAbstract a b = specAbstract a b := by
  unfold mergeAbstract specAbstract
  cases hta : strTruthy a <;> cases htb : strTruthy b <;> simp [hta, htb]

/-- The code's scalar-identifier fill coincides with the spec's wording. -/
theorem prefFill_eq_spec (a b : Option String) : prefFill a b = specFill a b := by
  unfold prefFill specFill
  cases hta : strTruthy a <;> cases htb : strTruthy b <;> simp [hta, htb]

/-- The code's URL fill coincides with the spec's wording. -/
theorem urlFill_eq_spec (a b : Option String) : urlFill a b = specUrlFill a b := by
  unfold urlFill specUrlFill
  cases a <;> cases b <;> simp

/-- The code's paper-type merge coincides with the spec's wording. -/
theorem paperType_merge_eq_spec (a b : PaperType) :
    (if a = .unknown && !(b = .unknown) then b else a) = specPaperType a b := by
  unfold specPaperType
  cases ha : decide (a = PaperType.unknown) <;> cases hb : decide (b = PaperType.unknown) <;>
    simp_all

/-- The code's first-seen-order append-union equals the spec's first-seen
union whenever the base list is duplicate-free (which the §3 data model
guarantees: `sources` and `keywords` are semantically sets). -/
theorem orderedUnion_eq_spec {α : Type} [DecidableEq α] (xs ys : List α) (h : xs.Nodup) :
    orderedUnion xs ys = specFirstSeenUnion xs ys := by
  unfold orderedUnion specFirstSeenUnion
  rw [List.foldl_append]
  congr 1
  have gen : ∀ (l : List α) (acc : List α), l.Nodup → (∀ x ∈ l, x ∉ acc) →
      l.foldl (fun acc y => if y ∈ acc then acc else acc ++ [y]) acc = acc ++ l := by
    intro l
    induction l with
    | nil => intro acc _ _; simp
    | cons x t ih =>
      intro acc hnd hdis
      have hx : x ∉ acc := hdis x (by simp)
      simp only [List.foldl_cons, if_neg hx]
      rw [ih (acc ++ [x]) hnd.of_cons]
      · simp
      · intro y hy
        simp only [List.mem_append, List.mem_singleton]
        push_neg
        exact ⟨fun hc => hdis y (by simp [hy]) hc, fun hc => (List.nodup_cons.mp hnd).1 (hc ▸ hy)⟩
  exact (gen xs [] h (by simp)).symm

end LitSearch

/-- C9: two identifier-less input records whose (non-empty) titles are
identical after lowercasing, punctuation stripping and whitespace collapsing
are merged by `deduplicate` into exactly one output record. -/
theorem C9_title_similarity_merge (θ : ℚ) (r1 r2 : Paper)
    (h1d : strTruthy r1.doi = false) (h1p : strTruthy r1.pmid = false)
    (h1a : strTruthy r1.arxiv_id = false)
    (h2d : strTruthy r2.doi = false) (h2p : strTruthy r2.pmid = false)
    (h2a : strTruthy r2.arxiv_id = false)
    (ht1 : r1.title ≠ "") (ht2 : r2.title ≠ "")
    (hnorm : normalizeTitle r1.title = normalizeTitle r2.title) :
    deduplicate θ [r1, r2] = [mergeInto r1 r2] := by
  have hsim : titlesSimilar θ r1.title r2.title = true := by
    unfold titlesSimilar
    simp [String.isEmpty_iff, ht1, ht2, hnorm]
  unfold deduplicate buildIndexes
  simp [indexStep, h1d, h1p, h1a, h2d, h2p, h2a, doiPass, pmidPass, arxivPass,
    groupByTitleSimilarity, groupByTitleAux, hsim, noIdStep, mergeGroup, mergeIntoAll]

/-- First witness record for C9 (no identifiers, title without the period). -/
def c9a : Paper := { title := "Deep Learning for Genomics", sources := [.pubmed] }

/-- Second witness record for C9 (no identifiers, trailing period). -/
def c9b : Paper := { title := "Deep Learning for Genomics.", sources := [.arxiv] }

/-- C9 witness: the documented trailing-period pair merges to one record. -/
theorem C9_title_similarity_merge_witness :
    normalizeTitle c9a.title = normalizeTitle c9b.title
      ∧ deduplicate defaultThreshold [c9a, c9b] = [mergeInto c9a c9b] :=
  ⟨by decide, C9_title_similarity_merge defaultThreshold c9a c9b rfl rfl rfl rfl rfl rfl
    (by decide) (by decide) (by decide)⟩

/-- C7: two input records with the same non-null DOI and different source
tags merge into exactly one output record whose sources are the first-seen
union, whose citation count is the maximum of the two, and whose remaining
fields follow the documented field-merge policy (the `Nodup` hypotheses are
the §3 data-model reading of `sources` and `keywords` as sets). -/
theorem C7_doi_merge_policy (θ : ℚ) (r1 r2 : Paper) (d : String)
    (hd1 : r1.doi = some d) (hd2 : r2.doi = some d) (hd : d ≠ "")
    (_hsrc : r1.sources ≠ r2.sources)
    (hnd : r1.sources.Nodup) (hkw : r1.keywords.Nodup) :
    deduplicate θ [r1, r2] = [mergeInto r1 r2]
      ∧ (mergeInto r1 r2).sources = specFirstSeenUnion r1.sources r2.sources
      ∧ (mergeInto r1 r2).citations = max r1.citations r2.citations
      ∧ (mergeInto r1 r2).abstract = specAbstract r1.abstract r2.abstract
      ∧ (mergeInto r1 r2).doi = specFill r1.doi r2.doi
      ∧ (mergeInto r1 r2).pmid = specFill r1.pmid r2.pmid
      ∧ (mergeInto r1 r2).pmcid = specFill r1.pmcid r2.pmcid
      ∧ (mergeInto r1 r2).arxiv_id = specFill r1.arxiv_id r2.arxiv_id
      ∧ (mergeInto r1 r2).pdf_url = specUrlFill r1.pdf_url r2.pdf_url
      ∧ (mergeInto r1 r2).url = specUrlFill r1.url r2.url
      ∧ (mergeInto r1 r2).keywords = specFirstSeenUnion r1.keywords r2.keywords
      ∧ (mergeInto r1 r2).paper_type = specPaperType r1.paper_type r2.paper_type
      ∧ (mergeInto r1 r2).authors
          = (if r2.authors.length > r1.authors.length then r2.authors else r1.authors) := by
  have hie : d.isEmpty = false := by
    rw [Bool.eq_false_iff]
    intro h
    exact hd ((String.isEmpty_iff d).mp h)
  have htr1 : strTruthy r1.doi = true := by simp [hd1, strTruthy, hie]
  have htr2 : strTruthy r2.doi = true := by simp [hd2, strTruthy, hie]
  refine ⟨?_, ?_, rfl, mergeAbstract_eq_spec _ _, prefFill_eq_spec _ _, prefFill_eq_spec _ _,
    prefFill_eq_spec _ _, prefFill_eq_spec _ _, urlFill_eq_spec _ _, urlFill_eq_spec _ _,
    orderedUnion_eq_spec _ _ hkw, ?_, rfl⟩
  · unfold deduplicate buildIndexes
    simp [indexStep, strTruthy, hie, htr1, htr2, hd1, hd2, dictAppend, doiPass, pmidPass,
      arxivPass, groupByTitleSimilarity, groupByTitleAux, noIdStep, mergeGroup, mergeIntoAll]
  · exact orderedUnion_eq_spec _ _ hnd
  · exact paperType_merge_eq_spec _ _

/-- First witness record for C7. -/
def c7a : Paper :=
  { title := "Genome Study", doi := some "10.1/d", citations := 3,
    sources := [.pubmed], keywords := ["ML"] }

/-- Second witness record for C7. -/
def c7b : Paper :=
  { title := "Genome Study", doi := some "10.1/d", citations := 100,
    sources := [.crossref], keywords := ["AI"] }

/-- C7 witness: a concrete same-DOI pair from two different sources. -/
theorem C7_doi_merge_policy_witness :
    c7a.sources ≠ c7b.sources
      ∧ (deduplicate defaultThreshold [c7a, c7b] = [mergeInto c7a c7b]
        ∧ (mergeInto c7a c7b).sources = specFirstSeenUnion c7a.sources c7b.sources
        ∧ (mergeInto c7a c7b).citations = max c7a.citations c7b.citations
        ∧ (mergeInto c7a c7b).abstract = specAbstract c7a.abstract c7b.abstract
        ∧ (mergeInto c7a c7b).doi = specFill c7a.doi c7b.doi
        ∧ (mergeInto c7a c7b).pmid = specFill c7a.pmid c7b.pmid
        ∧ (mergeInto c7a c7b).pmcid = specFill c7a.pmcid c7b.pmcid
        ∧ (mergeInto c7a c7b).arxiv_id = specFill c7a.arxiv_id c7b.arxiv_id
        ∧ (mergeInto c7a c7b).pdf_url = specUrlFill c7a.pdf_url c7b.pdf_url
        ∧ (mergeInto c7a c7b).url = specUrlFill c7a.url c7b.url
        ∧ (mergeInto c7a c7b).keywords = specFirstSeenUnion c7a.keywords c7b.keywords
        ∧ (mergeInto c7a c7b).paper_type = specPaperType c7a.paper_type c7b.paper_type
        ∧ (mergeInto c7a c7b).authors
            = (if c7b.authors.length > c7a.authors.length then c7b.authors else c7a.authors)) :=
  ⟨by decide,
    C7_doi_merge_policy defaultThreshold c7a c7b "10.1/d" rfl rfl (by decide) (by decide)
      (by decide) (by decide)⟩
open LitSearch

namespace LitSearch

/-- The PMID values of the DOI-less input records, in input order. -/
def pmidVals (l : List Paper) : List String :=
  (l.filter (fun p => !(strTruthy p.doi) && strTruthy p.pmid)).map (fun p => p.pmid.getD "")

/-- Structural invariant of the four identifier buckets: what membership in
each bucket says about a paper's identifier fields, plus key distinctness and
non-emptiness of every group. -/
def IdxInv (idx : Indexes) : Prop :=
  (∀ kg ∈ idx.doi, kg.2 ≠ [] ∧ ∀ p ∈ kg.2, p.doi = some kg.1 ∧ strTruthy p.doi = true)
  ∧ (idx.doi.map Prod.fst).Nodup
  ∧ (∀ kg ∈ idx.pmid, kg.2 ≠ [] ∧ ∀ p ∈ kg.2,
      strTruthy p.doi = false ∧ p.pmid = some kg.1 ∧ strTruthy p.pmid = true)
  ∧ (idx.pmid.map Prod.fst).Nodup
  ∧ (∀ kg ∈ idx.arxiv, kg.2 ≠ [] ∧ ∀ p ∈ kg.2,
      strTruthy p.doi = false ∧ strTruthy p.pmid = false
        ∧ p.arxiv_id = some kg.1 ∧ strTruthy p.arxiv_id = true)
  ∧ (idx.arxiv.map Prod.fst).Nodup
  ∧ (∀ p ∈ idx.noId,
      strTruthy p.doi = false ∧ strTruthy p.pmid = false ∧ strTruthy p.arxiv_id = false)

end LitSearch

theorem strTruthy_some_getD {o : Option String} (h : strTruthy o = true) :
    o = some (o.getD "") := by
  cases o with
  | none => simp [strTruthy] at h
  | some s => rfl

theorem dictAppend_fst (d : List (String × List Paper)) (k : String) (p : Paper) :
    (dictAppend d k p).map Prod.fst
      = if k ∈ d.map Prod.fst then d.map Prod.fst else d.map Prod.fst ++ [k] := by
  induction d with
  | nil => simp [dictAppend]
  | cons kg rest ih =>
    obtain ⟨k', g⟩ := kg
    by_cases hk : k' = k
    · rw [hk]
      simp [dictAppend]
    · have hne : ¬ (k = k') := fun h => hk h.symm
      simp only [dictAppend, if_neg hk, List.map_cons, List.mem_cons, ih]
      by_cases hmem : k ∈ rest.map Prod.fst <;> simp [hmem, hne]

theorem dictAppend_forall (P : String → List Paper → Prop)
    (d : List (String × List Paper)) (k : String) (p : Paper)
    (h : ∀ kg ∈ d, P kg.1 kg.2)
    (hstep : ∀ g, P k g → P k (g ++ [p])) (hnew : P k [p]) :
    ∀ kg ∈ dictAppend d k p, P kg.1 kg.2 := by
  induction d with
  | nil =>
    intro kg hkg
    simp only [dictAppend, List.mem_singleton] at hkg
    rw [hkg]
    exact hnew
  | cons kg0 rest ih =>
    obtain ⟨k', g⟩ := kg0
    intro kg hkg
    by_cases hk : k' = k
    · simp only [dictAppend, if_pos hk] at hkg
      rcases List.mem_cons.mp hkg with h1 | h2
      · rw [h1]
        have := h (k', g) (by simp)
        rw [hk] at this ⊢
        exact hstep g this
      · exact h kg (by simp [h2])
    · simp only [dictAppend, if_neg hk] at hkg
      rcases List.mem_cons.mp hkg with h1 | h2
      · rw [h1]
        exact h (k', g) (by simp)
      · exact ih (fun kg2 hkg2 => h kg2 (by simp [hkg2])) kg h2

theorem dictAppend_nodup (d : List (String × List Paper)) (k : String) (p : Paper)
    (h : (d.map Prod.fst).Nodup) : ((dictAppend d k p).map Prod.fst).Nodup := by
  rw [dictAppend_fst]
  by_cases hmem : k ∈ d.map Prod.fst
  · simpa [hmem] using h
  · simpa [hmem] using List.nodup_append.mpr ⟨h, by simp, by simp [hmem]⟩

theorem indexStep_inv (idx : Indexes) (p : Paper) (h : IdxInv idx) :
    IdxInv (indexStep idx p) := by
  obtain ⟨hd, hdn, hp, hpn, ha, han, hn⟩ := h
  unfold indexStep
  by_cases h1 : strTruthy p.doi = true
  · simp only [if_pos h1]
    refine ⟨?_, dictAppend_nodup _ _ _ hdn, hp, hpn, ha, han, hn⟩
    refine dictAppend_forall
      (P := fun k g => g ≠ [] ∧ ∀ q ∈ g, q.doi = some k ∧ strTruthy q.doi = true)
      _ _ _ hd ?_ ?_
    · intro g hg
      refine ⟨by simp, ?_⟩
      intro q hq
      rcases List.mem_append.mp hq with hq1 | hq2
      · exact hg.2 q hq1
      · simp only [List.mem_singleton] at hq2
        rw [hq2]
        exact ⟨strTruthy_some_getD h1, h1⟩
    · refine ⟨by simp, ?_⟩
      intro q hq
      simp only [List.mem_singleton] at hq
      rw [hq]
      exact ⟨strTruthy_some_getD h1, h1⟩
  · have h1f : strTruthy p.doi = false := by simpa using h1
    simp only [h1f, Bool.false_eq_true, if_false]
    by_cases h2 : strTruthy p.pmid = true
    · simp only [if_pos h2]
      refine ⟨hd, hdn, ?_, dictAppend_nodup _ _ _ hpn, ha, han, hn⟩
      refine dictAppend_forall
        (P := fun k g => g ≠ [] ∧ ∀ q ∈ g,
          strTruthy q.doi = false ∧ q.pmid = some k ∧ strTruthy q.pmid = true)
        _ _ _ hp ?_ ?_
      · intro g hg
        refine ⟨by simp, ?_⟩
        intro q hq
        rcases List.mem_append.mp hq with hq1 | hq2
        · exact hg.2 q hq1
        · simp only [List.mem_singleton] at hq2
          rw [hq2]
          exact ⟨h1f, strTruthy_some_getD h2, h2⟩
      · refine ⟨by simp, ?_⟩
        intro q hq
        simp only [List.mem_singleton] at hq
        rw [hq]
        exact ⟨h1f, strTruthy_some_getD h2, h2⟩
    · have h2f : strTruthy p.pmid = false := by simpa using h2
      simp only [h2f, Bool.false_eq_true, if_false]
      by_cases h3 : strTruthy p.arxiv_id = true
      · simp only [if_pos h3]
        refine ⟨hd, hdn, hp, hpn, ?_, dictAppend_nodup _ _ _ han, hn⟩
        refine dictAppend_forall
          (P := fun k g => g ≠ [] ∧ ∀ q ∈ g,
            strTruthy q.doi = false ∧ strTruthy q.pmid = false
              ∧ q.arxiv_id = some k ∧ strTruthy q.arxiv_id = true)
          _ _ _ ha ?_ ?_
        · intro g hg
          refine ⟨by simp, ?_⟩
          intro q hq
          rcases List.mem_append.mp hq with hq1 | hq2
          · exact hg.2 q hq1
          · simp only [List.mem_singleton] at hq2
            rw [hq2]
            exact ⟨h1f, h2f, strTruthy_some_getD h3, h3⟩
        · refine ⟨by simp, ?_⟩
          intro q hq
          simp only [List.mem_singleton] at hq
          rw [hq]
          exact ⟨h1f, h2f, strTruthy_some_getD h3, h3⟩
      · have h3f : strTruthy p.arxiv_id = false := by simpa using h3
        simp only [h3f, Bool.false_eq_true, if_false]
        refine ⟨hd, hdn, hp, hpn, ha, han, ?_⟩
        intro q hq
        rcases List.mem_append.mp hq with hq1 | hq2
        · exact hn q hq1
        · simp only [List.mem_singleton] at hq2
          rw [hq2]
          exact ⟨h1f, h2f, h3f⟩

theorem buildIndexes_inv (l : List Paper) : IdxInv (buildIndexes l) := by
  have gen : ∀ (l : List Paper) (idx : Indexes), IdxInv idx → IdxInv (l.foldl indexStep idx) := by
    intro l
    induction l with
    | nil => intro idx h; exact h
    | cons p rest ih => intro idx h; exact ih _ (indexStep_inv idx p h)
  refine gen l {} ?_
  refine ⟨?_, ?_, ?_, ?_, ?_, ?_, ?_⟩ <;> simp [Indexes]

theorem prefFill_of_truthy {t : Option String} (b : Option String) (h : strTruthy t = true) :
    prefFill t b = t := by
  simp [prefFill, h]

theorem prefFill_of_falsy_b {b : Option String} (t : Option String) (h : strTruthy b = false) :
    prefFill t b = t := by
  unfold prefFill
  split_ifs <;> simp_all

theorem mergeInto_doi_of_truthy (t b : Paper) (h : strTruthy t.doi = true) :
    (mergeInto t b).doi = t.doi := by
  simp [mergeInto, prefFill_of_truthy _ h]

theorem mergeInto_doi_of_falsy_b (t b : Paper) (h : strTruthy b.doi = false) :
    (mergeInto t b).doi = t.doi := by
  simp [mergeInto, prefFill_of_falsy_b _ h]

theorem mergeIntoAll_doi_of_truthy (t : Paper) (papers : List Paper)
    (h : strTruthy t.doi = true) : (mergeIntoAll t papers).doi = t.doi := by
  induction papers generalizing t with
  | nil => rfl
  | cons b rest ih =>
    unfold mergeIntoAll
    rw [List.foldl_cons]
    have hb : (mergeInto t b).doi = t.doi := mergeInto_doi_of_truthy t b h
    have : strTruthy (mergeInto t b).doi = true := by rw [hb]; exact h
    rw [show List.foldl mergeInto (mergeInto t b) rest = mergeIntoAll (mergeInto t b) rest from rfl,
      ih _ this, hb]

theorem mergeIntoAll_doi_of_falsy (t : Paper) (papers : List Paper)
    (h : ∀ p ∈ papers, strTruthy p.doi = false) : (mergeIntoAll t papers).doi = t.doi := by
  induction papers generalizing t with
  | nil => rfl
  | cons b rest ih =>
    unfold mergeIntoAll
    rw [List.foldl_cons]
    have hb : (mergeInto t b).doi = t.doi := mergeInto_doi_of_falsy_b t b (h b (by simp))
    rw [show List.foldl mergeInto (mergeInto t b) rest = mergeIntoAll (mergeInto t b) rest from rfl,
      ih (mergeInto t b) (fun p hp => h p (by simp [hp]))]
    exact hb

theorem mergeGroup_doi_of_key (k : String) (g : List Paper) (hne : g ≠ [])
    (h : ∀ p ∈ g, p.doi = some k ∧ strTruthy p.doi = true) :
    (mergeGroup g).doi = some k ∧ strTruthy (mergeGroup g).doi = true := by
  match g, hne with
  | p :: rest, _ =>
    have hp := h p (by simp)
    have : (mergeGroup (p :: rest)).doi = p.doi := mergeIntoAll_doi_of_truthy p rest hp.2
    rw [show mergeGroup (p :: rest) = mergeIntoAll p rest from rfl] at this ⊢
    rw [this, hp.1]
    exact ⟨rfl, by rw [← hp.1]; exact hp.2⟩

theorem mergeGroup_doi_falsy (g : List Paper)
    (h : ∀ p ∈ g, strTruthy p.doi = false) : strTruthy (mergeGroup g).doi = false := by
  match g with
  | [] => rfl
  | p :: rest =>
    rw [show mergeGroup (p :: rest) = mergeIntoAll p rest from rfl,
      mergeIntoAll_doi_of_falsy p rest (fun q hq => h q (by simp [hq]))]
    exact h p (by simp)

theorem pmidPass_emits (idx : List (String × List Paper))
    (h : ∀ kg ∈ idx, ∀ p ∈ kg.2, strTruthy p.doi = false) :
    ∀ proc0, pmidPass idx proc0
      = (idx.map (fun kg => mergeGroup kg.2), proc0 ++ idx.map (fun kg => "pmid:" ++ kg.1)) := by
  have gen : ∀ (idx : List (String × List Paper)) (out0 : List Paper) (proc0 : List String),
      (∀ kg ∈ idx, ∀ p ∈ kg.2, strTruthy p.doi = false) →
      idx.foldl
        (fun acc kg =>
          if kg.2.any (fun p => strTruthy p.doi && acc.2.contains ("doi:" ++ p.doi.getD ""))
          then acc
          else (acc.1 ++ [mergeGroup kg.2], acc.2 ++ ["pmid:" ++ kg.1]))
        (out0, proc0)
      = (out0 ++ idx.map (fun kg => mergeGroup kg.2),
         proc0 ++ idx.map (fun kg => "pmid:" ++ kg.1)) := by
    intro idx
    induction idx with
    | nil => intro out0 proc0 _; simp
    | cons kg rest ih =>
      intro out0 proc0 hall
      have hcond : kg.2.any
          (fun p => strTruthy p.doi && (out0, proc0).2.contains ("doi:" ++ p.doi.getD ""))
          = false := by
        rw [List.any_eq_false]
        intro p hp
        simp [hall kg (by simp) p hp]
      rw [List.foldl_cons]
      simp only [hcond, Bool.false_eq_true, if_false]
      rw [ih _ _ (fun kg2 hkg2 => hall kg2 (by simp [hkg2]))]
      simp
  intro proc0
  exact gen idx [] proc0 h

theorem arxivPass_emits (idx : List (String × List Paper))
    (h : ∀ kg ∈ idx, ∀ p ∈ kg.2, strTruthy p.doi = false ∧ strTruthy p.pmid = false) :
    ∀ proc0, arxivPass idx proc0
      = (idx.map (fun kg => mergeGroup kg.2), proc0 ++ idx.map (fun kg => "arxiv:" ++ kg.1)) := by
  have gen : ∀ (idx : List (String × List Paper)) (out0 : List Paper) (proc0 : List String),
      (∀ kg ∈ idx, ∀ p ∈ kg.2, strTruthy p.doi = false ∧ strTruthy p.pmid = false) →
      idx.foldl
        (fun acc kg =>
          if kg.2.any (fun p =>
              (strTruthy p.doi && acc.2.contains ("doi:" ++ p.doi.getD ""))
              || (strTruthy p.pmid && acc.2.contains ("pmid:" ++ p.pmid.getD "")))
          then acc
          else (acc.1 ++ [mergeGroup kg.2], acc.2 ++ ["arxiv:" ++ kg.1]))
        (out0, proc0)
      = (out0 ++ idx.map (fun kg => mergeGroup kg.2),
         proc0 ++ idx.map (fun kg => "arxiv:" ++ kg.1)) := by
    intro idx
    induction idx with
    | nil => intro out0 proc0 _; simp
    | cons kg rest ih =>
      intro out0 proc0 hall
      have hcond : kg.2.any (fun p =>
          (strTruthy p.doi && (out0, proc0).2.contains ("doi:" ++ p.doi.getD ""))
          || (strTruthy p.pmid && (out0, proc0).2.contains ("pmid:" ++ p.pmid.getD "")))
          = false := by
        rw [List.any_eq_false]
        intro p hp
        have := hall kg (by simp) p hp
        simp [this.1, this.2]
      rw [List.foldl_cons]
      simp only [hcond, Bool.false_eq_true, if_false]
      rw [ih _ _ (fun kg2 hkg2 => hall kg2 (by simp [hkg2]))]
      simp
  intro proc0
  exact gen idx [] proc0 h

theorem indexStep_doiCase (idx : Indexes) (p : Paper) (h : strTruthy p.doi = true) :
    indexStep idx p = { idx with doi := dictAppend idx.doi (p.doi.getD "") p } := by
  unfold indexStep
  rw [if_pos h]

theorem indexStep_pmidCase (idx : Indexes) (p : Paper)
    (h1 : strTruthy p.doi = false) (h2 : strTruthy p.pmid = true) :
    indexStep idx p = { idx with pmid := dictAppend idx.pmid (p.pmid.getD "") p } := by
  unfold indexStep
  rw [h1]
  simp only [Bool.false_eq_true, if_false]
  rw [if_pos h2]

theorem indexStep_arxivCase (idx : Indexes) (p : Paper)
    (h1 : strTruthy p.doi = false) (h2 : strTruthy p.pmid = false)
    (h3 : strTruthy p.arxiv_id = true) :
    indexStep idx p = { idx with arxiv := dictAppend idx.arxiv (p.arxiv_id.getD "") p } := by
  unfold indexStep
  rw [h1, h2]
  simp only [Bool.false_eq_true, if_false]
  rw [if_pos h3]

theorem indexStep_noIdCase (idx : Indexes) (p : Paper)
    (h1 : strTruthy p.doi = false) (h2 : strTruthy p.pmid = false)
    (h3 : strTruthy p.arxiv_id = false) :
    indexStep idx p = { idx with noId := idx.noId ++ [p] } := by
  unfold indexStep
  rw [h1, h2, h3]
  simp only [Bool.false_eq_true, if_false]

theorem buildIndexes_pmid_keys (l : List Paper) :
    ((buildIndexes l).pmid).map Prod.fst = orderedUnion [] (pmidVals l) := by
  have gen : ∀ (l : List Paper) (idx : Indexes),
      ((l.foldl indexStep idx).pmid).map Prod.fst
        = orderedUnion (idx.pmid.map Prod.fst) (pmidVals l) := by
    intro l
    induction l with
    | nil => intro idx; rfl
    | cons p rest ih =>
      intro idx
      rw [List.foldl_cons]
      by_cases h1 : strTruthy p.doi = true
      · have hv : pmidVals (p :: rest) = pmidVals rest := by
          unfold pmidVals
          rw [List.filter_cons]
          simp [h1]
        rw [indexStep_doiCase idx p h1, ih _, hv]
      · have h1f : strTruthy p.doi = false := by simpa using h1
        by_cases h2 : strTruthy p.pmid = true
        · have hv : pmidVals (p :: rest) = (p.pmid.getD "") :: pmidVals rest := by
            unfold pmidVals
            rw [List.filter_cons]
            simp [h1f, h2]
          rw [indexStep_pmidCase idx p h1f h2, ih _, hv]
          show _ = orderedUnion _ _
          unfold orderedUnion
          rw [List.foldl_cons]
          congr 1
          rw [dictAppend_fst]
        · have h2f : strTruthy p.pmid = false := by simpa using h2
          have hv : pmidVals (p :: rest) = pmidVals rest := by
            unfold pmidVals
            rw [List.filter_cons]
            simp [h1f, h2f]
          by_cases h3 : strTruthy p.arxiv_id = true
          · rw [indexStep_arxivCase idx p h1f h2f h3, ih _, hv]
          · have h3f : strTruthy p.arxiv_id = false := by simpa using h3
            rw [indexStep_noIdCase idx p h1f h2f h3f, ih _, hv]
  rw [show buildIndexes l = l.foldl indexStep {} from rfl, gen]
  rfl

namespace LitSearch

/-- Two optional identifier values clash when both are truthy and equal. -/
def doiClash (x y : Option String) : Prop :=
  strTruthy x = true ∧ strTruthy y = true ∧ x = y

end LitSearch

theorem set_same {α : Type} (l : List α) (i : Nat) (a : α) (h : l.get? i = some a) :
    l.set i a = l := by
  apply List.ext_get?
  intro j
  rw [List.get?_set]
  by_cases hij : i = j
  · subst hij
    rw [List.get?_eq_getElem?] at h
    simp [h]
  · simp [hij]

theorem groupByTitleAux_mem (θ : ℚ) :
    ∀ (fuel : Nat) (l : List Paper), ∀ g ∈ groupByTitleAux θ fuel l, ∀ p ∈ g, p ∈ l := by
  intro fuel
  induction fuel with
  | zero =>
    intro l g hg
    simp [groupByTitleAux] at hg
  | succ n ih =>
    intro l g hg p hp
    match l with
    | [] => simp [groupByTitleAux] at hg
    | q :: rest =>
      simp only [groupByTitleAux, List.mem_cons] at hg
      rcases hg with h1 | h2
      · rw [h1] at hp
        rcases List.mem_cons.mp hp with hp1 | hp2
        · simp [hp1]
        · exact List.mem_cons_of_mem _ (List.mem_of_mem_filter hp2)
      · exact List.mem_cons_of_mem _
          (List.mem_of_mem_filter (ih _ g h2 p hp))

theorem noIdStep_eq_set (θ : ℚ) (ms : List Paper) (g0 : Paper) (gr : List Paper)
    (i : Nat) (tgt : Paper)
    (hidx : ms.findIdx? (fun pr => titlesSimilar θ g0.title pr.title) = some i)
    (hget : ms.get? i = some tgt) :
    noIdStep θ ms (g0 :: gr) = ms.set i (mergeIntoAll tgt (g0 :: gr)) := by
  show (match ms.findIdx? (fun pr => titlesSimilar θ g0.title pr.title) with
    | some j =>
      match ms.get? j with
      | some t => ms.set j (mergeIntoAll t (g0 :: gr))
      | none => ms
    | none => ms ++ [mergeGroup (g0 :: gr)]) = ms.set i (mergeIntoAll tgt (g0 :: gr))
  simp only [hidx, hget]

theorem noIdStep_eq_same (θ : ℚ) (ms : List Paper) (g0 : Paper) (gr : List Paper) (i : Nat)
    (hidx : ms.findIdx? (fun pr => titlesSimilar θ g0.title pr.title) = some i)
    (hget : ms.get? i = none) :
    noIdStep θ ms (g0 :: gr) = ms := by
  show (match ms.findIdx? (fun pr => titlesSimilar θ g0.title pr.title) with
    | some j =>
      match ms.get? j with
      | some t => ms.set j (mergeIntoAll t (g0 :: gr))
      | none => ms
    | none => ms ++ [mergeGroup (g0 :: gr)]) = ms
  simp only [hidx, hget]

theorem noIdStep_eq_append (θ : ℚ) (ms : List Paper) (g0 : Paper) (gr : List Paper)
    (hidx : ms.findIdx? (fun pr => titlesSimilar θ g0.title pr.title) = none) :
    noIdStep θ ms (g0 :: gr) = ms ++ [mergeGroup (g0 :: gr)] := by
  show (match ms.findIdx? (fun pr => titlesSimilar θ g0.title pr.title) with
    | some j =>
      match ms.get? j with
      | some t => ms.set j (mergeIntoAll t (g0 :: gr))
      | none => ms
    | none => ms ++ [mergeGroup (g0 :: gr)]) = ms ++ [mergeGroup (g0 :: gr)]
  simp only [hidx]

theorem noIdStep_doi_pairwise (θ : ℚ) (ms : List Paper) (g : List Paper)
    (hg : ∀ p ∈ g, strTruthy p.doi = false)
    (hms : (ms.map (fun p => p.doi)).Pairwise (fun x y => ¬ doiClash x y)) :
    ((noIdStep θ ms g).map (fun p => p.doi)).Pairwise (fun x y => ¬ doiClash x y) := by
  match g with
  | [] => exact hms
  | g0 :: gr =>
    cases hidx : ms.findIdx? (fun pr => titlesSimilar θ g0.title pr.title) with
    | some i =>
      cases hget : ms.get? i with
      | some tgt =>
        rw [noIdStep_eq_set θ ms g0 gr i tgt hidx hget]
        have hdoi : (mergeIntoAll tgt (g0 :: gr)).doi = tgt.doi :=
          mergeIntoAll_doi_of_falsy tgt (g0 :: gr) hg
        rw [List.map_set, hdoi, set_same]
        · exact hms
        · rw [List.get?_map, hget]
          rfl
      | none =>
        rw [noIdStep_eq_same θ ms g0 gr i hidx hget]
        exact hms
    | none =>
      rw [noIdStep_eq_append θ ms g0 gr hidx]
      rw [List.map_append, List.pairwise_append]
      refine ⟨hms, by simp, ?_⟩
      intro x _ y hy
      simp only [List.map_singleton, List.mem_singleton] at hy
      intro hclash
      rw [hy] at hclash
      exact absurd hclash.2.1 (by simp [mergeGroup_doi_falsy (g0 :: gr) hg])

theorem not_doiClash_right {x y : Option String} (h : strTruthy y = false) : ¬ doiClash x y :=
  fun c => by
    have := c.2.1
    rw [h] at this
    exact absurd this (by simp)

theorem pairwise_not_clash_of_falsy (xs : List (Option String))
    (h : ∀ x ∈ xs, strTruthy x = false) :
    xs.Pairwise (fun x y => ¬ doiClash x y) := by
  induction xs with
  | nil => exact List.Pairwise.nil
  | cons x rest ih =>
    refine List.Pairwise.cons ?_ (ih (fun y hy => h y (by simp [hy])))
    intro y hy
    exact not_doiClash_right (h y (by simp [hy]))

theorem noIdFold_doi_pairwise (θ : ℚ) (groups : List (List Paper))
    (hg : ∀ g ∈ groups, ∀ p ∈ g, strTruthy p.doi = false) :
    ∀ ms, (ms.map (fun p => p.doi)).Pairwise (fun x y => ¬ doiClash x y) →
      ((groups.foldl (noIdStep θ) ms).map (fun p => p.doi)).Pairwise (fun x y => ¬ doiClash x y) := by
  induction groups with
  | nil => intro ms h; exact h
  | cons g rest ih =>
    intro ms h
    rw [List.foldl_cons]
    exact ih (fun g2 hg2 => hg g2 (by simp [hg2])) _
      (noIdStep_doi_pairwise θ ms g (hg g (by simp)) h)

theorem deduplicate_eq_fold (θ : ℚ) (l : List Paper) (hne : l.isEmpty = false)
    (hpm : ∀ kg ∈ (buildIndexes l).pmid, ∀ p ∈ kg.2, strTruthy p.doi = false)
    (hax : ∀ kg ∈ (buildIndexes l).arxiv, ∀ p ∈ kg.2,
      strTruthy p.doi = false ∧ strTruthy p.pmid = false) :
    deduplicate θ l
      = (groupByTitleSimilarity θ (buildIndexes l).noId).foldl (noIdStep θ)
          ((buildIndexes l).doi.map (fun kg => mergeGroup kg.2)
            ++ (buildIndexes l).pmid.map (fun kg => mergeGroup kg.2)
            ++ (buildIndexes l).arxiv.map (fun kg => mergeGroup kg.2)) := by
  unfold deduplicate
  rw [hne]
  simp only [Bool.false_eq_true, if_false]
  rw [show doiPass (buildIndexes l).doi
      = ((buildIndexes l).doi.map (fun kg => mergeGroup kg.2),
         (buildIndexes l).doi.map (fun kg => "doi:" ++ kg.1)) from rfl]
  rw [pmidPass_emits _ hpm, arxivPass_emits _ hax]

theorem doiOut_map_doi (l : List Paper) :
    ((buildIndexes l).doi.map (fun kg => mergeGroup kg.2)).map (fun p => p.doi)
      = (buildIndexes l).doi.map (fun kg => some kg.1) := by
  obtain ⟨hd, _, _, _, _, _, _⟩ := buildIndexes_inv l
  rw [List.map_map]
  apply List.map_congr_left
  intro kg hkg
  exact (mergeGroup_doi_of_key kg.1 kg.2 (hd kg hkg).1 (hd kg hkg).2).1

/-- C1 (amended): the deduplicated output never contains two records with
the same non-null DOI, for every input list and threshold. -/
theorem C1_amended_doi_unique (θ : ℚ) (l : List Paper) :
    (deduplicate θ l).Pairwise (fun a b => ¬ shareId Paper.doi a b) := by
  by_cases hne : l.isEmpty
  · unfold deduplicate
    rw [if_pos hne]
    exact List.Pairwise.nil
  · have hne' : l.isEmpty = false := by simpa using hne
    obtain ⟨hd, hdn, hp, hpn, ha, han, hn⟩ := buildIndexes_inv l
    have hpm : ∀ kg ∈ (buildIndexes l).pmid, ∀ p ∈ kg.2, strTruthy p.doi = false :=
      fun kg hkg p hp2 => ((hp kg hkg).2 p hp2).1
    have hax : ∀ kg ∈ (buildIndexes l).arxiv, ∀ p ∈ kg.2,
        strTruthy p.doi = false ∧ strTruthy p.pmid = false :=
      fun kg hkg p hp2 => ⟨((ha kg hkg).2 p hp2).1, ((ha kg hkg).2 p hp2).2.1⟩
    rw [deduplicate_eq_fold θ l hne' hpm hax]
    have hpmidF : ∀ x ∈ (buildIndexes l).pmid.map (fun kg => mergeGroup kg.2),
        strTruthy x.doi = false := by
      intro x hx
      rcases List.mem_map.mp hx with ⟨kg, hkg, hxeq⟩
      rw [← hxeq]
      exact mergeGroup_doi_falsy kg.2 (hpm kg hkg)
    have harxF : ∀ x ∈ (buildIndexes l).arxiv.map (fun kg => mergeGroup kg.2),
        strTruthy x.doi = false := by
      intro x hx
      rcases List.mem_map.mp hx with ⟨kg, hkg, hxeq⟩
      rw [← hxeq]
      exact mergeGroup_doi_falsy kg.2 (fun p hp2 => (hax kg hkg p hp2).1)
    have hgroups : ∀ g ∈ groupByTitleSimilarity θ (buildIndexes l).noId, ∀ p ∈ g,
        strTruthy p.doi = false := by
      intro g hgmem p hpmem
      exact (hn p (groupByTitleAux_mem θ _ _ g hgmem p hpmem)).1
    have hinit : ((((buildIndexes l).doi.map (fun kg => mergeGroup kg.2)
        ++ (buildIndexes l).pmid.map (fun kg => mergeGroup kg.2)
        ++ (buildIndexes l).arxiv.map (fun kg => mergeGroup kg.2)).map
          (fun p => p.doi))).Pairwise (fun x y => ¬ doiClash x y) := by
      rw [List.map_append, List.map_append, doiOut_map_doi, List.append_assoc,
        List.pairwise_append]
      refine ⟨?_, ?_, ?_⟩
      · rw [List.pairwise_map]
        have hne2 := (List.pairwise_map (f := Prod.fst)
          (R := fun (x y : String) => x ≠ y)).mp hdn
        apply hne2.imp
        intro kg kg' hkne hclash
        exact hkne (Option.some_injective _ hclash.2.2)
      · apply pairwise_not_clash_of_falsy
        intro x hx
        rw [← List.map_append] at hx
        rcases List.mem_map.mp hx with ⟨p, hpmem, hxeq⟩
        rw [← hxeq]
        rcases List.mem_append.mp hpmem with h1 | h2
        · exact hpmidF p h1
        · exact harxF p h2
      · intro a _ b hb
        rw [← List.map_append] at hb
        rcases List.mem_map.mp hb with ⟨p, hpmem, hbeq⟩
        rw [← hbeq]
        apply not_doiClash_right
        rcases List.mem_append.mp hpmem with h1 | h2
        · exact hpmidF p h1
        · exact harxF p h2
    exact List.pairwise_map.mp (noIdFold_doi_pairwise θ _ hgroups _ hinit)

/-- C1 amended, witness at the chain input. -/
theorem C1_amended_doi_unique_witness :
    (deduplicate defaultThreshold [chainA, chainB, chainC]).Pairwise
      (fun a b => ¬ shareId Paper.doi a b) :=
  C1_amended_doi_unique defaultThreshold [chainA, chainB, chainC]

/-- C10: the identifier bucketing is an exclusive priority partition, so every
member of every PMID group has a falsy DOI; hence the already-claimed-via-DOI
skip test of the PMID pass never fires — every PMID group is emitted — and
the pass produces exactly one record per distinct PMID value among the
DOI-less input records. -/
theorem C10_pmid_pass_exclusive (l : List Paper) :
    (∀ kg ∈ (buildIndexes l).pmid, ∀ p ∈ kg.2, strTruthy p.doi = false)
    ∧ (∀ proc0, pmidPass (buildIndexes l).pmid proc0
        = ((buildIndexes l).pmid.map (fun kg => mergeGroup kg.2),
           proc0 ++ (buildIndexes l).pmid.map (fun kg => "pmid:" ++ kg.1)))
    ∧ ((buildIndexes l).pmid.map (fun kg => mergeGroup kg.2)).length
        = (orderedUnion ([] : List String) (pmidVals l)).length := by
  obtain ⟨_, _, hp, _, _, _, _⟩ := buildIndexes_inv l
  have hpm : ∀ kg ∈ (buildIndexes l).pmid, ∀ p ∈ kg.2, strTruthy p.doi = false :=
    fun kg hkg p hp2 => ((hp kg hkg).2 p hp2).1
  refine ⟨hpm, pmidPass_emits _ hpm, ?_⟩
  rw [← buildIndexes_pmid_keys]
  simp

/-- C10 witness at the chain input: the single PMID group there is
[C] (DOI-less), it is emitted, and the pass output count equals the number
of distinct PMIDs among DOI-less records (one). -/
theorem C10_pmid_pass_exclusive_witness :
    strTruthy chainC.doi = false
    ∧ pmidPass (buildIndexes [chainA, chainB, chainC]).pmid
        (doiPass (buildIndexes [chainA, chainB, chainC]).doi).2
      = ([chainC], ["doi:X", "pmid:Y"])
    ∧ ((buildIndexes [chainA, chainB, chainC]).pmid.map (fun kg => mergeGroup kg.2)).length
      = (orderedUnion ([] : List String) (pmidVals [chainA, chainB, chainC])).length := by
  refine ⟨(C10_pmid_pass_exclusive [chainA, chainB, chainC]).1 ("Y", [chainC])
      (by show ("Y", [chainC]) ∈ [("Y", [chainC])]; simp) chainC (by simp), ?_,
    (C10_pmid_pass_exclusive [chainA, chainB, chainC]).2.2⟩
  rw [(C10_pmid_pass_exclusive [chainA, chainB, chainC]).2.1]
  rfl

theorem mergeInto_title (t b : Paper) : (mergeInto t b).title = t.title := rfl

theorem mergeInto_pmid (t b : Paper) : (mergeInto t b).pmid = prefFill t.pmid b.pmid := rfl

theorem mergeInto_arxiv (t b : Paper) :
    (mergeInto t b).arxiv_id = prefFill t.arxiv_id b.arxiv_id := rfl

theorem mergeInto_doi_eq (t b : Paper) : (mergeInto t b).doi = prefFill t.doi b.doi := rfl

theorem mergeIntoAll_title (t : Paper) (papers : List Paper) :
    (mergeIntoAll t papers).title = t.title := by
  induction papers generalizing t with
  | nil => rfl
  | cons b rest ih =>
    unfold mergeIntoAll
    rw [List.foldl_cons]
    exact (ih (mergeInto t b)).trans (mergeInto_title t b)

theorem mergeIntoAll_field_of_truthy (f : Paper → Option String)
    (hf : ∀ t b, f (mergeInto t b) = prefFill (f t) (f b))
    (t : Paper) (papers : List Paper) (h : strTruthy (f t) = true) :
    f (mergeIntoAll t papers) = f t := by
  induction papers generalizing t with
  | nil => rfl
  | cons b rest ih =>
    unfold mergeIntoAll
    rw [List.foldl_cons]
    have hb : f (mergeInto t b) = f t := by rw [hf, prefFill_of_truthy _ h]
    have ht : strTruthy (f (mergeInto t b)) = true := by rw [hb]; exact h
    exact ((ih (mergeInto t b) ht).trans hb : _)

theorem mergeIntoAll_field_of_falsy (f : Paper → Option String)
    (hf : ∀ t b, f (mergeInto t b) = prefFill (f t) (f b))
    (t : Paper) (papers : List Paper) (h : ∀ p ∈ papers, strTruthy (f p) = false) :
    f (mergeIntoAll t papers) = f t := by
  induction papers generalizing t with
  | nil => rfl
  | cons b rest ih =>
    unfold mergeIntoAll
    rw [List.foldl_cons]
    have hb : f (mergeInto t b) = f t := by rw [hf, prefFill_of_falsy_b _ (h b (by simp))]
    exact ((ih (mergeInto t b) (fun p hp => h p (by simp [hp]))).trans hb : _)

theorem mergeGroup_title (p : Paper) (rest : List Paper) :
    (mergeGroup (p :: rest)).title = p.title :=
  mergeIntoAll_title p rest

theorem mergeGroup_pmid_of_key (k : String) (g : List Paper) (hne : g ≠ [])
    (h : ∀ p ∈ g, p.pmid = some k ∧ strTruthy p.pmid = true) :
    (mergeGroup g).pmid = some k ∧ strTruthy (mergeGroup g).pmid = true := by
  match g, hne with
  | p :: rest, _ =>
    have hp := h p (by simp)
    have heq : (mergeGroup (p :: rest)).pmid = p.pmid :=
      mergeIntoAll_field_of_truthy (fun q => q.pmid) mergeInto_pmid p rest hp.2
    rw [heq, hp.1]
    exact ⟨rfl, by rw [← hp.1]; exact hp.2⟩

theorem mergeGroup_pmid_falsy (g : List Paper)
    (h : ∀ p ∈ g, strTruthy p.pmid = false) : strTruthy (mergeGroup g).pmid = false := by
  match g with
  | [] => rfl
  | p :: rest =>
    have heq : (mergeGroup (p :: rest)).pmid = p.pmid :=
      mergeIntoAll_field_of_falsy (fun q => q.pmid) mergeInto_pmid p rest
        (fun q hq => h q (by simp [hq]))
    rw [heq]
    exact h p (by simp)

theorem mergeGroup_arxiv_of_key (k : String) (g : List Paper) (hne : g ≠ [])
    (h : ∀ p ∈ g, p.arxiv_id = some k ∧ strTruthy p.arxiv_id = true) :
    (mergeGroup g).arxiv_id = some k ∧ strTruthy (mergeGroup g).arxiv_id = true := by
  match g, hne with
  | p :: rest, _ =>
    have hp := h p (by simp)
    have heq : (mergeGroup (p :: rest)).arxiv_id = p.arxiv_id :=
      mergeIntoAll_field_of_truthy (fun q => q.arxiv_id) mergeInto_arxiv p rest hp.2
    rw [heq, hp.1]
    exact ⟨rfl, by rw [← hp.1]; exact hp.2⟩

theorem mergeGroup_arxiv_falsy (g : List Paper)
    (h : ∀ p ∈ g, strTruthy p.arxiv_id = false) : strTruthy (mergeGroup g).arxiv_id = false := by
  match g with
  | [] => rfl
  | p :: rest =>
    have heq : (mergeGroup (p :: rest)).arxiv_id = p.arxiv_id :=
      mergeIntoAll_field_of_falsy (fun q => q.arxiv_id) mergeInto_arxiv p rest
        (fun q hq => h q (by simp [hq]))
    rw [heq]
    exact h p (by simp)

theorem dictAppend_fresh (d : List (String × List Paper)) (k : String) (p : Paper)
    (h : k ∉ d.map Prod.fst) : dictAppend d k p = d ++ [(k, [p])] := by
  induction d with
  | nil => rfl
  | cons kg rest ih =>
    obtain ⟨k', g⟩ := kg
    have hk : k' ≠ k := by
      intro he
      exact h (by simp [he])
    simp only [dictAppend, if_neg hk, List.cons_append]
    rw [ih (fun hm => h (by simp [hm]))]

theorem foldl_indexStep_doiSeg :
    ∀ (A : List Paper) (idx0 : Indexes),
    (∀ x ∈ A, strTruthy x.doi = true) →
    (A.map (fun x => x.doi.getD "")).Nodup →
    (∀ x ∈ A, (x.doi.getD "") ∉ idx0.doi.map Prod.fst) →
    A.foldl indexStep idx0
      = { idx0 with doi := idx0.doi ++ A.map (fun x => (x.doi.getD "", [x])) } := by
  intro A
  induction A with
  | nil => intro idx0 _ _ _; simp
  | cons x rest ih =>
    intro idx0 hA hnd hfresh
    rw [List.foldl_cons, indexStep_doiCase idx0 x (hA x (by simp)),
      dictAppend_fresh _ _ _ (hfresh x (by simp))]
    rw [ih _ (fun y hy => hA y (by simp [hy])) (by simpa using hnd.of_cons) ?fresh]
    · simp
    case fresh =>
      intro y hy
      simp only [List.map_append, List.mem_append]
      push_neg
      refine ⟨hfresh y (by simp [hy]), ?_⟩
      simp only [List.map_cons, List.map_nil, List.mem_singleton]
      have := (List.nodup_cons.mp hnd).1
      intro he
      refine this ?_
      simp only [List.mem_map]
      exact ⟨y, hy, he⟩

theorem foldl_indexStep_pmidSeg :
    ∀ (B : List Paper) (idx0 : Indexes),
    (∀ x ∈ B, strTruthy x.doi = false ∧ strTruthy x.pmid = true) →
    (B.map (fun x => x.pmid.getD "")).Nodup →
    (∀ x ∈ B, (x.pmid.getD "") ∉ idx0.pmid.map Prod.fst) →
    B.foldl indexStep idx0
      = { idx0 with pmid := idx0.pmid ++ B.map (fun x => (x.pmid.getD "", [x])) } := by
  intro B
  induction B with
  | nil => intro idx0 _ _ _; simp
  | cons x rest ih =>
    intro idx0 hB hnd hfresh
    rw [List.foldl_cons, indexStep_pmidCase idx0 x (hB x (by simp)).1 (hB x (by simp)).2,
      dictAppend_fresh _ _ _ (hfresh x (by simp))]
    rw [ih _ (fun y hy => hB y (by simp [hy])) (by simpa using hnd.of_cons) ?fresh]
    · simp
    case fresh =>
      intro y hy
      simp only [List.map_append, List.mem_append]
      push_neg
      refine ⟨hfresh y (by simp [hy]), ?_⟩
      simp only [List.map_cons, List.map_nil, List.mem_singleton]
      have := (List.nodup_cons.mp hnd).1
      intro he
      refine this ?_
      simp only [List.mem_map]
      exact ⟨y, hy, he⟩

theorem foldl_indexStep_arxivSeg :
    ∀ (C : List Paper) (idx0 : Indexes),
    (∀ x ∈ C, strTruthy x.doi = false ∧ strTruthy x.pmid = false
      ∧ strTruthy x.arxiv_id = true) →
    (C.map (fun x => x.arxiv_id.getD "")).Nodup →
    (∀ x ∈ C, (x.arxiv_id.getD "") ∉ idx0.arxiv.map Prod.fst) →
    C.foldl indexStep idx0
      = { idx0 with arxiv := idx0.arxiv ++ C.map (fun x => (x.arxiv_id.getD "", [x])) } := by
  intro C
  induction C with
  | nil => intro idx0 _ _ _; simp
  | cons x rest ih =>
    intro idx0 hC hnd hfresh
    rw [List.foldl_cons,
      indexStep_arxivCase idx0 x (hC x (by simp)).1 (hC x (by simp)).2.1 (hC x (by simp)).2.2,
      dictAppend_fresh _ _ _ (hfresh x (by simp))]
    rw [ih _ (fun y hy => hC y (by simp [hy])) (by simpa using hnd.of_cons) ?fresh]
    · simp
    case fresh =>
      intro y hy
      simp only [List.map_append, List.mem_append]
      push_neg
      refine ⟨hfresh y (by simp [hy]), ?_⟩
      simp only [List.map_cons, List.map_nil, List.mem_singleton]
      have := (List.nodup_cons.mp hnd).1
      intro he
      refine this ?_
      simp only [List.mem_map]
      exact ⟨y, hy, he⟩

theorem foldl_indexStep_noIdSeg :
    ∀ (D : List Paper) (idx0 : Indexes),
    (∀ x ∈ D, strTruthy x.doi = false ∧ strTruthy x.pmid = false
      ∧ strTruthy x.arxiv_id = false) →
    D.foldl indexStep idx0 = { idx0 with noId := idx0.noId ++ D } := by
  intro D
  induction D with
  | nil => intro idx0 _; simp
  | cons x rest ih =>
    intro idx0 hD
    rw [List.foldl_cons,
      indexStep_noIdCase idx0 x (hD x (by simp)).1 (hD x (by simp)).2.1 (hD x (by simp)).2.2]
    rw [ih _ (fun y hy => hD y (by simp [hy]))]
    simp

theorem groupByTitleAux_ne_nil (θ : ℚ) :
    ∀ (fuel : Nat) (l : List Paper), ∀ g ∈ groupByTitleAux θ fuel l, g ≠ [] := by
  intro fuel
  induction fuel with
  | zero => intro l g hg; simp [groupByTitleAux] at hg
  | succ n ih =>
    intro l g hg
    match l with
    | [] => simp [groupByTitleAux] at hg
    | q :: rest =>
      simp only [groupByTitleAux, List.mem_cons] at hg
      rcases hg with h1 | h2
      · rw [h1]; simp
      · exact ih _ g h2

theorem groupByTitleAux_pairwise_heads (θ : ℚ) :
    ∀ (fuel : Nat) (l : List Paper),
    (groupByTitleAux θ fuel l).Pairwise
      (fun g g' => ∀ a ∈ g.head?, ∀ b ∈ g'.head?, titlesSimilar θ a.title b.title = false) := by
  intro fuel
  induction fuel with
  | zero => intro l; simp [groupByTitleAux]
  | succ n ih =>
    intro l
    match l with
    | [] => simp [groupByTitleAux]
    | q :: rest =>
      simp only [groupByTitleAux]
      refine List.Pairwise.cons ?_ (ih _)
      intro g' hg' a ha b hb
      simp only [List.head?_cons, Option.mem_some_iff] at ha
      rw [← ha]
      have hgne : g' ≠ [] := groupByTitleAux_ne_nil θ n _ g' hg'
      have hbmem : b ∈ g' := by
        cases g' with
        | nil => exact absurd rfl hgne
        | cons b0 bs =>
          simp only [List.head?_cons, Option.mem_some_iff] at hb
          rw [← hb]
          simp
      have hfil : b ∈ rest.filter (fun q2 => !(titlesSimilar θ q.title q2.title)) :=
        groupByTitleAux_mem θ n _ g' hg' b hbmem
      have := List.of_mem_filter hfil
      simpa using this

theorem filter_sim_nil (θ : ℚ) (c : Paper) (rest : List Paper)
    (h : ∀ b ∈ rest, titlesSimilar θ c.title b.title = false) :
    rest.filter (fun q => titlesSimilar θ c.title q.title) = [] := by
  rw [List.filter_eq_nil]
  intro b hb
  simp [h b hb]

theorem filter_notsim_self (θ : ℚ) (c : Paper) (rest : List Paper)
    (h : ∀ b ∈ rest, titlesSimilar θ c.title b.title = false) :
    rest.filter (fun q => !(titlesSimilar θ c.title q.title)) = rest := by
  rw [List.filter_eq_self]
  intro b hb
  simp [h b hb]

theorem groupByTitle_singletons (θ : ℚ) (C : List Paper)
    (h : C.Pairwise (fun a b => titlesSimilar θ a.title b.title = false)) :
    groupByTitleSimilarity θ C = C.map (fun c => [c]) := by
  unfold groupByTitleSimilarity
  induction C with
  | nil => rfl
  | cons c rest ih =>
    obtain ⟨hhead, htail⟩ := List.pairwise_cons.mp h
    show groupByTitleAux θ (rest.length + 1) (c :: rest) = [c] :: rest.map (fun c => [c])
    simp only [groupByTitleAux]
    rw [filter_sim_nil θ c rest hhead, filter_notsim_self θ c rest hhead]
    exact congrArg _ (ih htail)

theorem mergeGroup_singleton (c : Paper) : mergeGroup [c] = c := rfl

theorem noIdFold_singletons (θ : ℚ) :
    ∀ (C ms : List Paper),
    (∀ c ∈ C, ∀ x ∈ ms, titlesSimilar θ c.title x.title = false) →
    C.Pairwise (fun a b => titlesSimilar θ b.title a.title = false) →
    (C.map (fun c => [c])).foldl (noIdStep θ) ms = ms ++ C := by
  intro C
  induction C with
  | nil => intro ms _ _; simp
  | cons c rest ih =>
    intro ms hmx hpw
    obtain ⟨hhead, htail⟩ := List.pairwise_cons.mp hpw
    rw [List.map_cons, List.foldl_cons]
    have hidx : ms.findIdx? (fun pr => titlesSimilar θ c.title pr.title) = none :=
      List.findIdx?_eq_none_iff.mpr (fun x hx => hmx c (by simp) x hx)
    rw [noIdStep_eq_append θ ms c [] hidx, mergeGroup_singleton]
    rw [ih (ms ++ [c]) ?hmx htail]
    · simp
    case hmx =>
      intro c2 hc2 x hx
      rcases List.mem_append.mp hx with h1 | h2
      · exact hmx c2 (by simp [hc2]) x h1
      · simp only [List.mem_singleton] at h2
        rw [h2]
        exact hhead c2 hc2

namespace LitSearch

/-- A record with no truthy identifier (the no-identifier bucket shape). -/
def idsFalsy (p : Paper) : Prop :=
  strTruthy p.doi = false ∧ strTruthy p.pmid = false ∧ strTruthy p.arxiv_id = false

/-- The fields of a paper that the identifier passes and the title check read;
merging no-identifier groups into a paper never changes them. -/
def fieldsAgree (a b : Paper) : Prop :=
  a.title = b.title ∧ a.doi = b.doi ∧ a.pmid = b.pmid ∧ a.arxiv_id = b.arxiv_id

/-- Invariant of the no-identifier loop of `deduplicate`: the working list is
the (field-preserved) identifier-pass output followed by the emitted
candidates, whose titles are pairwise dissimilar in both argument orders,
dissimilar from every identifier-pass record, and dissimilar from the leaders
of the groups still to process. -/
def FoldInv (θ : ℚ) (X0 : List Paper) (remaining : List (List Paper)) (ms : List Paper) : Prop :=
  ∃ Xc C, ms = Xc ++ C
    ∧ List.Forall₂ fieldsAgree Xc X0
    ∧ (∀ c ∈ C, idsFalsy c)
    ∧ (C.map (fun c => c.title)).Pairwise (fun a b => titlesSimilar θ a b = false)
    ∧ (C.map (fun c => c.title)).Pairwise (fun a b => titlesSimilar θ b a = false)
    ∧ (∀ t ∈ C.map (fun c => c.title), ∀ x ∈ X0, titlesSimilar θ t x.title = false)
    ∧ (∀ t ∈ C.map (fun c => c.title), ∀ g ∈ remaining, ∀ b ∈ g.head?,
        titlesSimilar θ t b.title = false)

end LitSearch

theorem fieldsAgree_refl (a : Paper) : fieldsAgree a a := ⟨rfl, rfl, rfl, rfl⟩

theorem fieldsAgree_trans {a b c : Paper} (h1 : fieldsAgree a b) (h2 : fieldsAgree b c) :
    fieldsAgree a c :=
  ⟨h1.1.trans h2.1, h1.2.1.trans h2.2.1, h1.2.2.1.trans h2.2.2.1, h1.2.2.2.trans h2.2.2.2⟩

theorem forall₂_fieldsAgree_refl (l : List Paper) : List.Forall₂ fieldsAgree l l := by
  induction l with
  | nil => exact List.Forall₂.nil
  | cons a rest ih => exact List.Forall₂.cons (fieldsAgree_refl a) ih

theorem forall₂_map_eq {γ : Type} (f : Paper → γ)
    (hf : ∀ a b, fieldsAgree a b → f a = f b) :
    ∀ {X X0 : List Paper}, List.Forall₂ fieldsAgree X X0 → X.map f = X0.map f := by
  intro X X0 h
  induction h with
  | nil => rfl
  | cons hab _ ih => simp [hf _ _ hab, ih]

theorem mergeIntoAll_fieldsAgree (t : Paper) (g : List Paper) (h : ∀ p ∈ g, idsFalsy p) :
    fieldsAgree (mergeIntoAll t g) t :=
  ⟨mergeIntoAll_title t g,
    mergeIntoAll_field_of_falsy (fun q => q.doi) mergeInto_doi_eq t g
      (fun p hp => (h p hp).1),
    mergeIntoAll_field_of_falsy (fun q => q.pmid) mergeInto_pmid t g
      (fun p hp => (h p hp).2.1),
    mergeIntoAll_field_of_falsy (fun q => q.arxiv_id) mergeInto_arxiv t g
      (fun p hp => (h p hp).2.2)⟩

theorem idsFalsy_of_fieldsAgree {a b : Paper} (hab : fieldsAgree a b) (h : idsFalsy b) :
    idsFalsy a := by
  obtain ⟨-, hd, hp, ha⟩ := hab
  exact ⟨hd ▸ h.1, hp ▸ h.2.1, ha ▸ h.2.2⟩

theorem mergeGroup_idsFalsy (g : List Paper) (h : ∀ p ∈ g, idsFalsy p) :
    idsFalsy (mergeGroup g) := by
  match g with
  | [] => exact ⟨rfl, rfl, rfl⟩
  | p :: rest =>
    have hfa : fieldsAgree (mergeGroup (p :: rest)) p :=
      mergeIntoAll_fieldsAgree p rest (fun q hq => h q (by simp [hq]))
    exact idsFalsy_of_fieldsAgree hfa (h p (by simp))

theorem forall₂_fieldsAgree_set (X : List Paper) (X0 : List Paper)
    (h : List.Forall₂ fieldsAgree X X0) (i : Nat) (tgt v : Paper)
    (hget : X.get? i = some tgt) (hva : fieldsAgree v tgt) :
    List.Forall₂ fieldsAgree (X.set i v) X0 := by
  rw [List.forall₂_iff_get] at h ⊢
  obtain ⟨hlen, hpt⟩ := h
  refine ⟨by simpa using hlen, ?_⟩
  intro j h1 h2
  by_cases hij : i = j
  · subst hij
    have hi : i < X.length := by simpa using h1
    have : (X.set i v).get ⟨i, h1⟩ = v := by
      simp [List.get_eq_getElem, List.getElem_set_self]
    rw [this]
    have htgt : X.get ⟨i, hi⟩ = tgt := by
      have := List.get?_eq_get hi
      rw [hget] at this
      exact (Option.some_injective _ this.symm)
    exact fieldsAgree_trans hva (htgt ▸ hpt i hi h2)
  · have : (X.set i v).get ⟨j, h1⟩ = X.get ⟨j, by simpa using h1⟩ := by
      simp only [List.get_eq_getElem]
      rw [List.getElem_set_ne hij]
    rw [this]
    exact hpt j (by simpa using h1) h2

theorem noIdStep_inv (θ : ℚ) (X0 : List Paper) (ms : List Paper)
    (g : List Paper) (remaining : List (List Paper))
    (hgne : g ≠ []) (hgf : ∀ p ∈ g, idsFalsy p)
    (hrel : ∀ g' ∈ remaining, ∀ a ∈ g.head?, ∀ b ∈ g'.head?,
      titlesSimilar θ a.title b.title = false)
    (hinv : FoldInv θ X0 (g :: remaining) ms) :
    FoldInv θ X0 remaining (noIdStep θ ms g) := by
  match g, hgne with
  | g0 :: gr, _ =>
    obtain ⟨Xc, C, hms, hfa, hCf, hCfwd, hCbwd, hCX, hCrem⟩ := hinv
    have hXtitles : Xc.map (fun p => p.title) = X0.map (fun p => p.title) :=
      forall₂_map_eq _ (fun a b hab => hab.1) hfa
    cases hidx : ms.findIdx? (fun pr => titlesSimilar θ g0.title pr.title) with
    | none =>
      rw [noIdStep_eq_append θ ms g0 gr hidx]
      have hnone := List.findIdx?_eq_none_iff.mp hidx
      have hc't : (mergeGroup (g0 :: gr)).title = g0.title := mergeGroup_title g0 gr
      refine ⟨Xc, C ++ [mergeGroup (g0 :: gr)], by rw [hms, List.append_assoc], hfa, ?_, ?_, ?_, ?_, ?_⟩
      · intro c hc
        rcases List.mem_append.mp hc with h1 | h2
        · exact hCf c h1
        · simp only [List.mem_singleton] at h2
          rw [h2]
          exact mergeGroup_idsFalsy _ (fun p hp => hgf p hp)
      · rw [List.map_append, List.pairwise_append]
        refine ⟨hCfwd, by simp, ?_⟩
        intro t ht b hb
        simp only [List.map_singleton, List.mem_singleton] at hb
        rw [hb, hc't]
        exact hCrem t ht (g0 :: gr) (by simp) g0 (by simp)
      · rw [List.map_append, List.pairwise_append]
        refine ⟨hCbwd, by simp, ?_⟩
        intro t ht b hb
        simp only [List.map_singleton, List.mem_singleton] at hb
        rw [hb, hc't]
        rcases List.mem_map.mp ht with ⟨c, hcC, hct⟩
        rw [← hct]
        exact hnone c (by rw [hms]; exact List.mem_append.mpr (Or.inr hcC))
      · intro t ht x hx
        rw [List.map_append] at ht
        rcases List.mem_append.mp ht with h1 | h2
        · exact hCX t h1 x hx
        · simp only [List.map_singleton, List.mem_singleton] at h2
          rw [h2, hc't]
          have : x.title ∈ Xc.map (fun p => p.title) := by
            rw [hXtitles]
            exact List.mem_map_of_mem _ hx
          rcases List.mem_map.mp this with ⟨x', hx'Xc, hx't⟩
          rw [← hx't]
          exact hnone x' (by rw [hms]; exact List.mem_append.mpr (Or.inl hx'Xc))
      · intro t ht g' hg' b hb
        rw [List.map_append] at ht
        rcases List.mem_append.mp ht with h1 | h2
        · exact hCrem t h1 g' (by simp [hg']) b hb
        · simp only [List.map_singleton, List.mem_singleton] at h2
          rw [h2, hc't]
          exact hrel g' hg' g0 (by simp) b hb
    | some i =>
      cases hget : ms.get? i with
      | none =>
        rw [noIdStep_eq_same θ ms g0 gr i hidx hget]
        exact ⟨Xc, C, hms, hfa, hCf, hCfwd, hCbwd, hCX,
          fun t ht g' hg' b hb => hCrem t ht g' (by simp [hg']) b hb⟩
      | some tgt =>
        rw [noIdStep_eq_set θ ms g0 gr i tgt hidx hget]
        have hvagree : fieldsAgree (mergeIntoAll tgt (g0 :: gr)) tgt :=
          mergeIntoAll_fieldsAgree tgt (g0 :: gr) hgf
        by_cases hi : i < Xc.length
        · have hgetX : Xc.get? i = some tgt := by
            rw [hms, List.get?_append hi] at hget
            exact hget
          have hset : ms.set i (mergeIntoAll tgt (g0 :: gr))
              = Xc.set i (mergeIntoAll tgt (g0 :: gr)) ++ C := by
            rw [hms, List.set_append, if_pos hi]
          rw [hset]
          exact ⟨Xc.set i (mergeIntoAll tgt (g0 :: gr)), C, rfl,
            forall₂_fieldsAgree_set Xc X0 hfa i tgt _ hgetX hvagree,
            hCf, hCfwd, hCbwd, hCX,
            fun t ht g' hg' b hb => hCrem t ht g' (by simp [hg']) b hb⟩
        · have hile : Xc.length ≤ i := Nat.le_of_not_lt hi
          have hgetC : C.get? (i - Xc.length) = some tgt := by
            rw [hms, List.get?_append_right hile] at hget
            exact hget
          have hset : ms.set i (mergeIntoAll tgt (g0 :: gr))
              = Xc ++ C.set (i - Xc.length) (mergeIntoAll tgt (g0 :: gr)) := by
            rw [hms, List.set_append, if_neg hi]
          rw [hset]
          have htgtC : tgt ∈ C := List.get?_mem hgetC
          have htitlesEq : (C.set (i - Xc.length) (mergeIntoAll tgt (g0 :: gr))).map
              (fun p => p.title) = C.map (fun p => p.title) := by
            rw [List.map_set]
            apply set_same
            rw [List.get?_map, hgetC]
            simp [hvagree.1]
          refine ⟨Xc, C.set (i - Xc.length) (mergeIntoAll tgt (g0 :: gr)), rfl, hfa, ?_, ?_, ?_, ?_, ?_⟩
          · intro c hc
            rcases List.mem_or_eq_of_mem_set hc with h1 | h2
            · exact hCf c h1
            · rw [h2]
              exact idsFalsy_of_fieldsAgree hvagree (hCf tgt htgtC)
          · rw [htitlesEq]; exact hCfwd
          · rw [htitlesEq]; exact hCbwd
          · rw [htitlesEq]; exact hCX
          · rw [htitlesEq]
            exact fun t ht g' hg' b hb => hCrem t ht g' (by simp [hg']) b hb

namespace LitSearch

/-- The output of the three identifier passes of `deduplicate`, before the
no-identifier loop runs. -/
def idPassOut (l : List Paper) : List Paper :=
  (buildIndexes l).doi.map (fun kg => mergeGroup kg.2)
    ++ ((buildIndexes l).pmid.map (fun kg => mergeGroup kg.2)
      ++ (buildIndexes l).arxiv.map (fun kg => mergeGroup kg.2))

end LitSearch

theorem noIdFold_inv (θ : ℚ) (X0 : List Paper) :
    ∀ (groups : List (List Paper)) (ms : List Paper),
    (∀ g ∈ groups, g ≠ [] ∧ ∀ p ∈ g, idsFalsy p) →
    groups.Pairwise (fun g g' => ∀ a ∈ g.head?, ∀ b ∈ g'.head?,
      titlesSimilar θ a.title b.title = false) →
    FoldInv θ X0 groups ms →
    FoldInv θ X0 [] (groups.foldl (noIdStep θ) ms) := by
  intro groups
  induction groups with
  | nil => intro ms _ _ h; exact h
  | cons g rest ih =>
    intro ms hne hpw hinv
    rw [List.foldl_cons]
    obtain ⟨hhead, htail⟩ := List.pairwise_cons.mp hpw
    refine ih _ (fun g' hg' => hne g' (by simp [hg'])) htail
      (noIdStep_inv θ X0 ms g rest (hne g (by simp)).1 (hne g (by simp)).2 ?_ hinv)
    intro g' hg' a ha b hb
    exact hhead g' hg' a ha b hb

theorem deduplicate_shape (θ : ℚ) (l : List Paper) (hne : l.isEmpty = false) :
    FoldInv θ (idPassOut l) [] (deduplicate θ l) := by
  obtain ⟨hd, hdn, hp, hpn, ha, han, hn⟩ := buildIndexes_inv l
  have hpm : ∀ kg ∈ (buildIndexes l).pmid, ∀ p ∈ kg.2, strTruthy p.doi = false :=
    fun kg hkg p hp2 => ((hp kg hkg).2 p hp2).1
  have hax : ∀ kg ∈ (buildIndexes l).arxiv, ∀ p ∈ kg.2,
      strTruthy p.doi = false ∧ strTruthy p.pmid = false :=
    fun kg hkg p hp2 => ⟨((ha kg hkg).2 p hp2).1, ((ha kg hkg).2 p hp2).2.1⟩
  rw [deduplicate_eq_fold θ l hne hpm hax]
  have hX0 : (buildIndexes l).doi.map (fun kg => mergeGroup kg.2)
      ++ (buildIndexes l).pmid.map (fun kg => mergeGroup kg.2)
      ++ (buildIndexes l).arxiv.map (fun kg => mergeGroup kg.2) = idPassOut l := by
    unfold idPassOut
    rw [List.append_assoc]
  rw [hX0]
  apply noIdFold_inv
  · intro g hg
    refine ⟨groupByTitleAux_ne_nil θ _ _ g hg, ?_⟩
    intro p hp2
    have := hn p (groupByTitleAux_mem θ _ _ g hg p hp2)
    exact this
  · exact groupByTitleAux_pairwise_heads θ _ _
  · exact ⟨idPassOut l, [], by simp, forall₂_fieldsAgree_refl _, by simp, by simp, by simp,
      by simp, by simp⟩

theorem map_mergeGroup_singletons (xs : List Paper) (keyf : Paper → String) :
    (xs.map (fun x => (keyf x, [x]))).map (fun kg => mergeGroup kg.2) = xs := by
  induction xs with
  | nil => rfl
  | cons x rest ih =>
    simp only [List.map_cons]
    rw [ih, mergeGroup_singleton]

theorem dedup_fixed_point (θ : ℚ) (Xd' Xp' Xa' C : List Paper)
    (hDt : ∀ x ∈ Xd', strTruthy x.doi = true)
    (hDk : (Xd'.map (fun x => x.doi.getD "")).Nodup)
    (hPd : ∀ x ∈ Xp', strTruthy x.doi = false)
    (hPt : ∀ x ∈ Xp', strTruthy x.pmid = true)
    (hPk : (Xp'.map (fun x => x.pmid.getD "")).Nodup)
    (hAd : ∀ x ∈ Xa', strTruthy x.doi = false)
    (hAp : ∀ x ∈ Xa', strTruthy x.pmid = false)
    (hAt : ∀ x ∈ Xa', strTruthy x.arxiv_id = true)
    (hAk : (Xa'.map (fun x => x.arxiv_id.getD "")).Nodup)
    (hCf : ∀ c ∈ C, idsFalsy c)
    (hCfwd : C.Pairwise (fun a b => titlesSimilar θ a.title b.title = false))
    (hCbwd : C.Pairwise (fun a b => titlesSimilar θ b.title a.title = false))
    (hCX : ∀ c ∈ C, ∀ x ∈ Xd' ++ (Xp' ++ Xa'), titlesSimilar θ c.title x.title = false) :
    deduplicate θ (Xd' ++ (Xp' ++ (Xa' ++ C))) = Xd' ++ (Xp' ++ (Xa' ++ C)) := by
  by_cases hemp : (Xd' ++ (Xp' ++ (Xa' ++ C))).isEmpty
  · have : Xd' ++ (Xp' ++ (Xa' ++ C)) = [] := by
      cases h : Xd' ++ (Xp' ++ (Xa' ++ C)) with
      | nil => rfl
      | cons a as => rw [h] at hemp; simp [List.isEmpty] at hemp
    rw [this]
    rfl
  · have hne : (Xd' ++ (Xp' ++ (Xa' ++ C))).isEmpty = false := by simpa using hemp
    have hbuild : buildIndexes (Xd' ++ (Xp' ++ (Xa' ++ C)))
        = { doi := Xd'.map (fun x => (x.doi.getD "", [x])),
            pmid := Xp'.map (fun x => (x.pmid.getD "", [x])),
            arxiv := Xa'.map (fun x => (x.arxiv_id.getD "", [x])),
            noId := C } := by
      unfold buildIndexes
      rw [List.foldl_append, List.foldl_append, List.foldl_append]
      rw [foldl_indexStep_doiSeg Xd' {} hDt hDk (by simp [Indexes])]
      rw [foldl_indexStep_pmidSeg Xp' _ (fun x hx => ⟨hPd x hx, hPt x hx⟩) hPk (by simp)]
      rw [foldl_indexStep_arxivSeg Xa' _ (fun x hx => ⟨hAd x hx, hAp x hx, hAt x hx⟩) hAk
        (by simp)]
      rw [foldl_indexStep_noIdSeg C _ (fun x hx => hCf x hx)]
      simp
    have hpmEmits : ∀ kg ∈ Xp'.map (fun x => (x.pmid.getD "", [x])), ∀ p ∈ kg.2,
        strTruthy p.doi = false := by
      intro kg hkg p hp2
      rcases List.mem_map.mp hkg with ⟨x, hx, hxeq⟩
      rw [← hxeq] at hp2
      simp only [List.mem_singleton] at hp2
      rw [hp2]
      exact hPd x hx
    have haxEmits : ∀ kg ∈ Xa'.map (fun x => (x.arxiv_id.getD "", [x])), ∀ p ∈ kg.2,
        strTruthy p.doi = false ∧ strTruthy p.pmid = false := by
      intro kg hkg p hp2
      rcases List.mem_map.mp hkg with ⟨x, hx, hxeq⟩
      rw [← hxeq] at hp2
      simp only [List.mem_singleton] at hp2
      rw [hp2]
      exact ⟨hAd x hx, hAp x hx⟩
    rw [deduplicate_eq_fold θ _ hne (by rw [hbuild]; exact hpmEmits)
      (by rw [hbuild]; exact haxEmits)]
    rw [hbuild]
    simp only
    rw [map_mergeGroup_singletons Xd' _, map_mergeGroup_singletons Xp' _,
      map_mergeGroup_singletons Xa' _]
    rw [groupByTitle_singletons θ C hCfwd]
    rw [noIdFold_singletons θ C (Xd' ++ Xp' ++ Xa') ?hmx hCbwd]
    · rw [List.append_assoc, List.append_assoc]
    case hmx =>
      intro c hc x hx
      apply hCX c hc
      rw [← List.append_assoc]
      exact hx

theorem forall₂_truthy_transfer (f : Paper → Option String)
    (hfeq : ∀ a b, fieldsAgree a b → f a = f b) (v : Bool)
    {X Y : List Paper} (hfa : List.Forall₂ fieldsAgree X Y)
    (hY : ∀ y ∈ Y, strTruthy (f y) = v) : ∀ x ∈ X, strTruthy (f x) = v := by
  intro x hx
  have hmem : f x ∈ X.map f := List.mem_map_of_mem f hx
  rw [forall₂_map_eq f hfeq hfa] at hmem
  rcases List.mem_map.mp hmem with ⟨y, hy, heq⟩
  rw [← heq]
  exact hY y hy

/-- C5: deduplication is idempotent — re-running `deduplicate` on
already-merged output changes nothing, for every record list and
threshold. -/
theorem C5_deduplicate_idempotent (θ : ℚ) (l : List Paper) :
    deduplicate θ (deduplicate θ l) = deduplicate θ l := by
  by_cases hl : l.isEmpty
  · have hnil : l = [] := by
      cases l with
      | nil => rfl
      | cons a as => simp [List.isEmpty] at hl
    rw [hnil]
    rfl
  · have hne : l.isEmpty = false := by simpa using hl
    obtain ⟨hd, hdn, hp, hpn, ha, han, hn⟩ := buildIndexes_inv l
    obtain ⟨Xc, C, hout, hfa, hCf, hCfwd', hCbwd', hCX', -⟩ := deduplicate_shape θ l hne
    -- the three identifier-pass segments of the first run
    set Dd := (buildIndexes l).doi.map (fun kg => mergeGroup kg.2) with hDd
    set Dp := (buildIndexes l).pmid.map (fun kg => mergeGroup kg.2) with hDp
    set Da := (buildIndexes l).arxiv.map (fun kg => mergeGroup kg.2) with hDa
    have hX0 : idPassOut l = Dd ++ (Dp ++ Da) := rfl
    rw [hX0] at hfa hCX'
    -- facts about the original segments
    have hDdT : ∀ y ∈ Dd, strTruthy y.doi = true := by
      intro y hy
      rcases List.mem_map.mp hy with ⟨kg, hkg, hyeq⟩
      rw [← hyeq]
      exact (mergeGroup_doi_of_key kg.1 kg.2 (hd kg hkg).1 (hd kg hkg).2).2
    have hDdKeys : Dd.map (fun x => x.doi.getD "")
        = (buildIndexes l).doi.map Prod.fst := by
      rw [hDd, List.map_map]
      apply List.map_congr_left
      intro kg hkg
      have := (mergeGroup_doi_of_key kg.1 kg.2 (hd kg hkg).1 (hd kg hkg).2).1
      simp [this]
    have hDpD : ∀ y ∈ Dp, strTruthy y.doi = false := by
      intro y hy
      rcases List.mem_map.mp hy with ⟨kg, hkg, hyeq⟩
      rw [← hyeq]
      exact mergeGroup_doi_falsy kg.2 (fun p hp2 => ((hp kg hkg).2 p hp2).1)
    have hDpT : ∀ y ∈ Dp, strTruthy y.pmid = true := by
      intro y hy
      rcases List.mem_map.mp hy with ⟨kg, hkg, hyeq⟩
      rw [← hyeq]
      exact (mergeGroup_pmid_of_key kg.1 kg.2 (hp kg hkg).1
        (fun p hp2 => ⟨((hp kg hkg).2 p hp2).2.1, ((hp kg hkg).2 p hp2).2.2⟩)).2
    have hDpKeys : Dp.map (fun x => x.pmid.getD "")
        = (buildIndexes l).pmid.map Prod.fst := by
      rw [hDp, List.map_map]
      apply List.map_congr_left
      intro kg hkg
      have := (mergeGroup_pmid_of_key kg.1 kg.2 (hp kg hkg).1
        (fun p hp2 => ⟨((hp kg hkg).2 p hp2).2.1, ((hp kg hkg).2 p hp2).2.2⟩)).1
      simp [this]
    have hDaD : ∀ y ∈ Da, strTruthy y.doi = false := by
      intro y hy
      rcases List.mem_map.mp hy with ⟨kg, hkg, hyeq⟩
      rw [← hyeq]
      exact mergeGroup_doi_falsy kg.2 (fun p hp2 => ((ha kg hkg).2 p hp2).1)
    have hDaP : ∀ y ∈ Da, strTruthy y.pmid = false := by
      intro y hy
      rcases List.mem_map.mp hy with ⟨kg, hkg, hyeq⟩
      rw [← hyeq]
      exact mergeGroup_pmid_falsy kg.2 (fun p hp2 => ((ha kg hkg).2 p hp2).2.1)
    have hDaT : ∀ y ∈ Da, strTruthy y.arxiv_id = true := by
      intro y hy
      rcases List.mem_map.mp hy with ⟨kg, hkg, hyeq⟩
      rw [← hyeq]
      exact (mergeGroup_arxiv_of_key kg.1 kg.2 (ha kg hkg).1
        (fun p hp2 => ⟨((ha kg hkg).2 p hp2).2.2.1, ((ha kg hkg).2 p hp2).2.2.2⟩)).2
    have hDaKeys : Da.map (fun x => x.arxiv_id.getD "")
        = (buildIndexes l).arxiv.map Prod.fst := by
      rw [hDa, List.map_map]
      apply List.map_congr_left
      intro kg hkg
      have := (mergeGroup_arxiv_of_key kg.1 kg.2 (ha kg hkg).1
        (fun p hp2 => ⟨((ha kg hkg).2 p hp2).2.2.1, ((ha kg hkg).2 p hp2).2.2.2⟩)).1
      simp [this]
    -- split the mutated prefix into the three segments
    set Xd' := Xc.take Dd.length with hXd'
    set Rest := Xc.drop Dd.length with hRest'
    set Xp' := Rest.take Dp.length with hXp'
    set Xa' := Rest.drop Dp.length with hXa'
    have hXcSplit : Xc = Xd' ++ Rest := (List.take_append_drop Dd.length Xc).symm
    have hRestSplit : Rest = Xp' ++ Xa' := (List.take_append_drop Dp.length Rest).symm
    have hfaD : List.Forall₂ fieldsAgree Xd' Dd := List.forall₂_take_append Xc Dd (Dp ++ Da) hfa
    have hfaRest : List.Forall₂ fieldsAgree Rest (Dp ++ Da) :=
      List.forall₂_drop_append Xc Dd (Dp ++ Da) hfa
    have hfaP : List.Forall₂ fieldsAgree Xp' Dp := List.forall₂_take_append Rest Dp Da hfaRest
    have hfaA : List.Forall₂ fieldsAgree Xa' Da := List.forall₂_drop_append Rest Dp Da hfaRest
    -- transfer the segment facts through field agreement
    have hdoiEq : ∀ a b, fieldsAgree a b → a.doi = b.doi := fun a b h2 => h2.2.1
    have hpmidEq : ∀ a b, fieldsAgree a b → a.pmid = b.pmid := fun a b h2 => h2.2.2.1
    have harxEq : ∀ a b, fieldsAgree a b → a.arxiv_id = b.arxiv_id := fun a b h2 => h2.2.2.2
    have hdoiKeyEq : ∀ a b, fieldsAgree a b → a.doi.getD "" = b.doi.getD "" :=
      fun a b h2 => by rw [h2.2.1]
    have hpmidKeyEq : ∀ a b, fieldsAgree a b → a.pmid.getD "" = b.pmid.getD "" :=
      fun a b h2 => by rw [h2.2.2.1]
    have harxKeyEq : ∀ a b, fieldsAgree a b → a.arxiv_id.getD "" = b.arxiv_id.getD "" :=
      fun a b h2 => by rw [h2.2.2.2]
    have hDt : ∀ x ∈ Xd', strTruthy x.doi = true :=
      forall₂_truthy_transfer (fun p => p.doi) hdoiEq true hfaD hDdT
    have hDk : (Xd'.map (fun x => x.doi.getD "")).Nodup := by
      rw [forall₂_map_eq _ hdoiKeyEq hfaD, hDdKeys]
      exact hdn
    have hPd : ∀ x ∈ Xp', strTruthy x.doi = false :=
      forall₂_truthy_transfer (fun p => p.doi) hdoiEq false hfaP hDpD
    have hPt : ∀ x ∈ Xp', strTruthy x.pmid = true :=
      forall₂_truthy_transfer (fun p => p.pmid) hpmidEq true hfaP hDpT
    have hPk : (Xp'.map (fun x => x.pmid.getD "")).Nodup := by
      rw [forall₂_map_eq _ hpmidKeyEq hfaP, hDpKeys]
      exact hpn
    have hAd : ∀ x ∈ Xa', strTruthy x.doi = false :=
      forall₂_truthy_transfer (fun p => p.doi) hdoiEq false hfaA hDaD
    have hAp : ∀ x ∈ Xa', strTruthy x.pmid = false :=
      forall₂_truthy_transfer (fun p => p.pmid) hpmidEq false hfaA hDaP
    have hAt : ∀ x ∈ Xa', strTruthy x.arxiv_id = true :=
      forall₂_truthy_transfer (fun p => p.arxiv_id) harxEq true hfaA hDaT
    have hAk : (Xa'.map (fun x => x.arxiv_id.getD "")).Nodup := by
      rw [forall₂_map_eq _ harxKeyEq hfaA, hDaKeys]
      exact han
    -- candidate conditions at the paper level
    have hCfwd : C.Pairwise (fun a b => titlesSimilar θ a.title b.title = false) :=
      List.pairwise_map.mp hCfwd'
    have hCbwd : C.Pairwise (fun a b => titlesSimilar θ b.title a.title = false) :=
      List.pairwise_map.mp hCbwd'
    have hXtitles : Xc.map (fun p => p.title) = (Dd ++ (Dp ++ Da)).map (fun p => p.title) :=
      forall₂_map_eq _ (fun a b h2 => h2.1) hfa
    have hCX : ∀ c ∈ C, ∀ x ∈ Xd' ++ (Xp' ++ Xa'), titlesSimilar θ c.title x.title = false := by
      intro c hc x hx
      have hxXc : x ∈ Xc := by
        rw [hXcSplit, hRestSplit]
        exact hx
      have hmem : x.title ∈ Xc.map (fun p => p.title) := List.mem_map_of_mem _ hxXc
      rw [hXtitles] at hmem
      rcases List.mem_map.mp hmem with ⟨y, hy, heq⟩
      rw [← heq]
      exact hCX' c.title (List.mem_map_of_mem _ hc) y hy
    -- reassemble and apply the fixed-point computation
    have houtSplit : deduplicate θ l = Xd' ++ (Xp' ++ (Xa' ++ C)) := by
      rw [hout, hXcSplit, hRestSplit]
      simp [List.append_assoc]
    rw [houtSplit]
    exact dedup_fixed_point θ Xd' Xp' Xa' C hDt hDk hPd hPt hPk hAd hAp hAt hAk
      hCf hCfwd hCbwd hCX
open LitSearch

namespace LitSearch

/-- Modelled from the spec's §4.2 wording: the additive relevance score with
a per-distinct-source provenance bonus. -/
noncomputable def specScore (currentYear : Int) (query : SearchQuery) (paper : Paper) : ℝ :=
  let terms := queryTerms query.query
  ((terms.filter (fun t => strContains paper.title.toLower t)).length : ℝ) * 20
    + (match paper.abstract with
      | none => 0
      | some a => ((terms.filter (fun t => strContains a.toLower t)).length : ℝ) * 5)
    + min 30 (5 * Real.logb 10 ((paper.citations : ℝ) + 1))
    + (match paper.year with
      | none => 0
      | some y =>
        if currentYear - y ≤ 2 then 20
        else if currentYear - y ≤ 5 then 15
        else if currentYear - y ≤ 10 then 10
        else if currentYear - y ≤ 20 then 5
        else 0)
    + ((paper.sources.dedup.length : ℝ)) * 10
    + (match query.paper_types with
      | none => 0
      | some ts => if paper.paper_type ∈ ts then 15 else 0)

end LitSearch

theorem queryTerms_ne_empty (q : String) : ∀ t ∈ queryTerms q, t.isEmpty = false := by
  intro t ht
  unfold queryTerms at ht
  have := List.mem_dedup.mp ht
  have := List.of_mem_filter this
  simpa using this

theorem strContains_empty_false (t : String) (ht : t.isEmpty = false) :
    strContains "" t = false := by
  unfold strContains containsSub
  cases hl : t.toList with
  | nil =>
    exfalso
    have : t = "" := by
      cases t with
      | mk data => cases data with
        | nil => rfl
        | cons c cs => simp [String.toList] at hl
    rw [this] at ht
    simp [String.isEmpty] at ht
  | cons c cs => simp [List.isPrefixOf, hl]

theorem toLower_empty : ("" : String).toLower = "" := by
  rw [show ("" : String).toLower = String.map Char.toLower "" from rfl, String.map_eq]
  rfl

theorem abstract_component_eq (terms : List String)
    (hterms : ∀ t ∈ terms, t.isEmpty = false) (ab : Option String) :
    (if strTruthy ab = true
      then ((terms.filter (fun t => strContains (ab.getD "").toLower t)).length : ℝ) * 5 else 0)
      = (match ab with
        | none => (0 : ℝ)
        | some a => ((terms.filter (fun t => strContains a.toLower t)).length : ℝ) * 5) := by
  cases ab with
  | none => simp [strTruthy]
  | some a =>
    by_cases hae : a.isEmpty
    · have ha0 : a = "" := (String.isEmpty_iff a).mp hae
      have hfil : terms.filter (fun t => strContains "".toLower t) = [] := by
        rw [List.filter_eq_nil]
        intro t ht
        rw [toLower_empty, strContains_empty_false t (hterms t ht)]
        simp
      rw [ha0]
      simp [strTruthy, hfil]
    · have htr : strTruthy (some a) = true := by simp [strTruthy, hae]
      rw [if_pos htr]
      rfl

theorem citation_component_eq (c : Nat) :
    (if c > 0 then min (30 : ℝ) (5 * Real.logb 10 ((c : ℝ) + 1)) else 0)
      = min (30 : ℝ) (5 * Real.logb 10 ((c : ℝ) + 1)) := by
  by_cases hc : c > 0
  · rw [if_pos hc]
  · have h0 : c = 0 := by omega
    rw [if_neg hc, h0]
    norm_num

theorem recency_component_eq (currentYear y : Int) (hyear : 20 < currentYear) :
    (if y = 0 then (0 : ℝ)
      else if currentYear - y ≤ 2 then 20
      else if currentYear - y ≤ 5 then 15
      else if currentYear - y ≤ 10 then 10
      else if currentYear - y ≤ 20 then 5
      else 0)
      = (if currentYear - y ≤ 2 then (20 : ℝ)
        else if currentYear - y ≤ 5 then 15
        else if currentYear - y ≤ 10 then 10
        else if currentYear - y ≤ 20 then 5
        else 0) := by
  by_cases hy0 : y = 0
  · rw [if_pos hy0, hy0]
    have h2 : ¬ (currentYear - 0 ≤ 2) := by omega
    have h5 : ¬ (currentYear - 0 ≤ 5) := by omega
    have h10 : ¬ (currentYear - 0 ≤ 10) := by omega
    have h20 : ¬ (currentYear - 0 ≤ 20) := by omega
    rw [if_neg h2, if_neg h5, if_neg h10, if_neg h20]
  · rw [if_neg hy0]

theorem type_component_eq (pt : PaperType) (ts : List PaperType) :
    (if ts ≠ [] ∧ pt ∈ ts then (15 : ℝ) else 0) = (if pt ∈ ts then (15 : ℝ) else 0) := by
  by_cases hmem : pt ∈ ts
  · rw [if_pos ⟨List.ne_nil_of_mem hmem, hmem⟩, if_pos hmem]
  · rw [if_neg (fun h2 => hmem h2.2), if_neg hmem]

theorem rankScore_eq_spec (currentYear : Int) (query : SearchQuery) (p : Paper)
    (hyear : 20 < currentYear) (hnd : p.sources.Nodup) :
    rankScore currentYear query p = specScore currentYear query p := by
  unfold rankScore specScore
  simp only []
  congr 1
  · congr 1
    · congr 1
      · congr 1
        · congr 1
          · exact abstract_component_eq _ (queryTerms_ne_empty _) p.abstract
        · exact citation_component_eq p.citations
      · cases p.year with
        | none => rfl
        | some y => exact recency_component_eq currentYear y hyear
    · rw [List.dedup_eq_self.mpr hnd]
  · cases query.paper_types with
    | none => rfl
    | some ts => exact type_component_eq p.paper_type ts

/-- C6: the Ranker assigns every record exactly the additive score of §4.2
(title and abstract term overlap, capped log-citation score, recency bonus,
per-distinct-source provenance bonus, paper-type bonus) and returns the list
sorted descending by that score (a permutation of the scored input).  The
`Nodup` hypothesis is the §3 data-model reading of `sources` as a set, under
which the code's per-entry bonus equals the spec's per-distinct-source bonus;
the year bound says the ranking runs no earlier than year 21, which
`datetime.now().year` always satisfies. -/
theorem C6_ranking_formula (currentYear : Int) (query : SearchQuery) (papers : List Paper)
    (hyear : 20 < currentYear) (hnd : ∀ p ∈ papers, p.sources.Nodup) :
    (∀ p ∈ papers, (assignScore currentYear query p).relevance_score
        = some (specScore currentYear query p))
    ∧ (rankPapers currentYear query papers).Pairwise (fun a b => scoreKey b ≤ scoreKey a)
    ∧ (rankPapers currentYear query papers).Perm
        (papers.map (assignScore currentYear query)) := by
  refine ⟨?_, ?_, ?_⟩
  · intro p hp
    show some (rankScore currentYear query p) = _
    rw [rankScore_eq_spec currentYear query p hyear (hnd p hp)]
  · unfold rankPapers
    have hs := @List.sorted_mergeSort Paper
      (fun a b => decide (scoreKey b ≤ scoreKey a))
      (fun a b c hab hbc =>
        decide_eq_true (le_trans (of_decide_eq_true hbc) (of_decide_eq_true hab)))
      (fun a b => by
        simp only [Bool.or_eq_true, decide_eq_true_eq]
        exact le_total (scoreKey b) (scoreKey a))
      (papers.map (assignScore currentYear query))
    exact hs.imp (fun h => of_decide_eq_true h)
  · unfold rankPapers
    exact List.mergeSort_perm _ _

/-- Witness query for C6. -/
def c6Query : SearchQuery := { query := "deep learning" }

/-- Witness paper for C6. -/
def c6Paper : Paper := { title := "Deep Learning", sources := [.pubmed], citations := 7 }

/-- C6 witness at a concrete query, year and single-paper list. -/
theorem C6_ranking_formula_witness :
    (20 : Int) < 2026
    ∧ ((∀ p ∈ [c6Paper], (assignScore 2026 c6Query p).relevance_score
          = some (specScore 2026 c6Query p))
      ∧ (rankPapers 2026 c6Query [c6Paper]).Pairwise (fun a b => scoreKey b ≤ scoreKey a)
      ∧ (rankPapers 2026 c6Query [c6Paper]).Perm
          ([c6Paper].map (assignScore 2026 c6Query))) :=
  ⟨by norm_num,
    C6_ranking_formula 2026 c6Query [c6Paper] (by norm_num)
      (by intro p hp; simp only [List.mem_singleton] at hp; rw [hp]; decide)⟩
open LitSearch

namespace LitSearch

/-- The record list a unit contributes to the accumulating raw results: the
provider's list on success, empty on failure. -/
def unitPapers (O : SearchOrchestrator) (q : SearchQuery) (s : Source) : List Paper :=
  match searchSource O s q with
  | .ok ps => ps
  | .error _ => []

/-- The error-map entry a unit contributes: none on success, the source value
keyed message on failure. -/
def unitError (O : SearchOrchestrator) (q : SearchQuery) (s : Source) :
    Option (String × String) :=
  match searchSource O s q with
  | .ok _ => none
  | .error e => some (s.value, e)

end LitSearch

theorem Source.value_injective : ∀ a b : Source, a.value = b.value → a = b := by
  intro a b
  cases a <;> cases b <;> simp [Source.value]

theorem dictSet_fst {κ β : Type} [DecidableEq κ] (d : List (κ × β)) (k : κ) (v : β) :
    (dictSet d k v).map Prod.fst
      = if k ∈ d.map Prod.fst then d.map Prod.fst else d.map Prod.fst ++ [k] := by
  induction d with
  | nil => simp [dictSet]
  | cons kv rest ih =>
    obtain ⟨k', v'⟩ := kv
    by_cases hk : k' = k
    · rw [hk]
      simp [dictSet]
    · have hne : ¬ (k = k') := fun h => hk h.symm
      simp only [dictSet, if_neg hk, List.map_cons, List.mem_cons, ih]
      by_cases hmem : k ∈ rest.map Prod.fst <;> simp [hmem, hne]

theorem dictSet_fresh {κ β : Type} [DecidableEq κ] (d : List (κ × β)) (k : κ) (v : β)
    (h : k ∉ d.map Prod.fst) : dictSet d k v = d ++ [(k, v)] := by
  induction d with
  | nil => rfl
  | cons kv rest ih =>
    obtain ⟨k', v'⟩ := kv
    have hk : k' ≠ k := fun he => h (by simp [he])
    simp only [dictSet, if_neg hk, List.cons_append]
    rw [ih (fun hm => h (by simp [hm]))]

theorem mem_dictSet_or {κ β : Type} [DecidableEq κ] (d : List (κ × β)) (k : κ) (v : β) :
    ∀ e ∈ dictSet d k v, e ∈ d ∨ e = (k, v) := by
  induction d with
  | nil =>
    intro e he
    simp only [dictSet, List.mem_singleton] at he
    exact Or.inr he
  | cons kv rest ih =>
    obtain ⟨k', v'⟩ := kv
    intro e he
    by_cases hk : k' = k
    · simp only [dictSet, if_pos hk, List.mem_cons] at he
      rcases he with h1 | h2
      · exact Or.inr h1
      · exact Or.inl (by simp [h2])
    · simp only [dictSet, if_neg hk, List.mem_cons] at he
      rcases he with h1 | h2
      · exact Or.inl (by simp [h1])
      · rcases ih e h2 with h3 | h4
        · exact Or.inl (by simp [h3])
        · exact Or.inr h4

theorem collect_eq_of_nodup (O : SearchOrchestrator) (q : SearchQuery) :
    ∀ (order : List Source), order.Nodup →
    collect O q order
      = (order.map (fun s => (s, unitPapers O q s)), order.filterMap (unitError O q)) := by
  have gen : ∀ (order : List Source) (d : List (Source × List Paper))
      (errs : List (String × String)),
      (∀ s ∈ order, s ∉ d.map Prod.fst) →
      (∀ s ∈ order, s.value ∉ errs.map Prod.fst) →
      order.Nodup →
      order.foldl
        (fun acc source =>
          match searchSource O source q with
          | .ok papers => (dictSet acc.1 source papers, acc.2)
          | .error e => (dictSet acc.1 source [], dictSet acc.2 source.value e))
        (d, errs)
      = (d ++ order.map (fun s => (s, unitPapers O q s)),
         errs ++ order.filterMap (unitError O q)) := by
    intro order
    induction order with
    | nil => intro d errs _ _ _; simp
    | cons s rest ih =>
      intro d errs hd herr hnd
      rw [List.foldl_cons]
      cases hs : searchSource O s q with
      | ok ps =>
        simp only [hs]
        rw [dictSet_fresh d s ps (hd s (by simp))]
        rw [ih (d ++ [(s, ps)]) errs ?hd2 (fun t ht => herr t (by simp [ht]))
          hnd.of_cons]
        · have hu : unitPapers O q s = ps := by simp [unitPapers, hs]
          have hue : unitError O q s = none := by simp [unitError, hs]
          simp [hu, hue, List.filterMap_cons]
        case hd2 =>
          intro t ht
          simp only [List.map_append, List.mem_append]
          push_neg
          refine ⟨hd t (by simp [ht]), ?_⟩
          simp only [List.map_cons, List.map_nil, List.mem_singleton]
          intro he
          exact (List.nodup_cons.mp hnd).1 (he ▸ ht)
      | error e =>
        simp only [hs]
        rw [dictSet_fresh d s [] (hd s (by simp)),
          dictSet_fresh errs s.value e (herr s (by simp))]
        rw [ih (d ++ [(s, [])]) (errs ++ [(s.value, e)]) ?hd2 ?herr2 hnd.of_cons]
        · have hu : unitPapers O q s = [] := by simp [unitPapers, hs]
          have hue : unitError O q s = some (s.value, e) := by simp [unitError, hs]
          simp [hu, hue, List.filterMap_cons]
        case hd2 =>
          intro t ht
          simp only [List.map_append, List.mem_append]
          push_neg
          refine ⟨hd t (by simp [ht]), ?_⟩
          simp only [List.map_cons, List.map_nil, List.mem_singleton]
          intro he
          exact (List.nodup_cons.mp hnd).1 (he ▸ ht)
        case herr2 =>
          intro t ht
          simp only [List.map_append, List.mem_append]
          push_neg
          refine ⟨herr t (by simp [ht]), ?_⟩
          simp only [List.map_cons, List.map_nil, List.mem_singleton]
          intro he
          have : t = s := Source.value_injective t s he
          exact (List.nodup_cons.mp hnd).1 (this ▸ ht)
  intro order hnd
  unfold collect
  rw [gen order [] [] (by simp) (by simp) hnd]
  simp

theorem rankPapers_nil (y : Int) (q : SearchQuery) : rankPapers y q [] = [] := by
  unfold rankPapers
  simp

theorem rankPapers_length (y : Int) (q : SearchQuery) (ps : List Paper) :
    (rankPapers y q ps).length = ps.length := by
  unfold rankPapers
  rw [(List.mergeSort_perm _ _).length_eq, List.length_map]

namespace LitSearch

/-- A demonstration orchestrator with the five registered providers, each
returning no records (the provider internals are out of scope). -/
noncomputable def demoOrchestrator : SearchOrchestrator :=
  ⟨fun s => if s ∈ registeredSources then some (fun _ => Except.ok []) else none⟩

/-- A query requesting one registered and one unregistered source. -/
def c2Query : SearchQuery := { query := "x", sources := [.pubmed, .semantic_scholar] }

end LitSearch

/-- C2, counterexample: `semantic_scholar` is requested but has no registered
provider, yet `search` does not raise — it returns a normal result in which
the unregistered source was silently skipped (not dispatched, not searched,
no error entry). -/
theorem C2_counterexample :
    Source.semantic_scholar ∈ c2Query.sources
    ∧ demoOrchestrator.providers Source.semantic_scholar = none
    ∧ dispatchedSources demoOrchestrator c2Query = [Source.pubmed]
    ∧ search demoOrchestrator c2Query (dispatchedSources demoOrchestrator c2Query) 2026
      = Except.ok
          { query := c2Query, papers := [], total_found := 0,
            sources_searched := [Source.pubmed], search_time := 0, errors := [] } := by
  have hdisp : dispatchedSources demoOrchestrator c2Query = [Source.pubmed] := by
    unfold dispatchedSources demoOrchestrator c2Query registeredSources
    simp
  refine ⟨by simp [c2Query], by simp [demoOrchestrator, registeredSources], hdisp, ?_⟩
  rw [hdisp]
  unfold search
  rw [collect_eq_of_nodup demoOrchestrator c2Query [Source.pubmed] (by simp)]
  have hu : unitPapers demoOrchestrator c2Query Source.pubmed = [] := by
    simp [unitPapers, searchSource, demoOrchestrator, registeredSources]
  have hue : unitError demoOrchestrator c2Query Source.pubmed = none := by
    simp [unitError, searchSource, demoOrchestrator, registeredSources]
  simp only [List.map_cons, List.map_nil, List.filterMap_cons, hu, hue]
  simp [deduplicate, rankPapers_nil]

/-- C2 (amended): a requested source with no registered provider is silently
skipped: `search` returns normally (never an exception), the source is not
dispatched, does not appear in the searched sources, and gets no error
entry.  The `Nodup` hypothesis is the §3 reading of the requested sources as
a set. -/
theorem C2_amended_silent_skip (O : SearchOrchestrator) (q : SearchQuery) (y : Int)
    (s : Source) (_hs : s ∈ q.sources) (hnone : O.providers s = none)
    (hnd : q.sources.Nodup) :
    s ∉ dispatchedSources O q
    ∧ search O q (dispatchedSources O q) y
      = Except.ok
          { query := q
            papers := rankPapers y q (deduplicate defaultThreshold
              (((collect O q (dispatchedSources O q)).1.map Prod.snd).flatten))
            total_found := ((collect O q (dispatchedSources O q)).1.map
              (fun kv => kv.2.length)).sum
            sources_searched := (collect O q (dispatchedSources O q)).1.map Prod.fst
            search_time := 0
            errors := (collect O q (dispatchedSources O q)).2 }
    ∧ s ∉ (collect O q (dispatchedSources O q)).1.map Prod.fst
    ∧ (∀ e ∈ (collect O q (dispatchedSources O q)).2, e.1 ≠ s.value) := by
  have hnotdisp : s ∉ dispatchedSources O q := by
    unfold dispatchedSources
    intro hmem
    have := List.of_mem_filter hmem
    rw [hnone] at this
    simp at this
  have hndd : (dispatchedSources O q).Nodup := List.Nodup.filter _ hnd
  have hc := collect_eq_of_nodup O q (dispatchedSources O q) hndd
  refine ⟨hnotdisp, rfl, ?_, ?_⟩
  · rw [hc]
    simp only [List.map_map]
    intro hmem
    rcases List.mem_map.mp hmem with ⟨t, ht, hts⟩
    have : t = s := by simpa using hts
    exact hnotdisp (this ▸ ht)
  · rw [hc]
    intro e he
    rcases List.mem_filterMap.mp he with ⟨t, ht, hte⟩
    unfold unitError at hte
    cases hst : searchSource O t q with
    | ok ps => rw [hst] at hte; simp at hte
    | error msg =>
      rw [hst] at hte
      simp only [Option.some_injective, Option.some.injEq] at hte
      rw [← hte]
      intro hval
      exact hnotdisp ((Source.value_injective t s hval) ▸ ht)

/-- C2 witness: the amended behaviour at the concrete query of the
counterexample. -/
theorem C2_amended_silent_skip_witness :
    Source.semantic_scholar ∈ c2Query.sources
    ∧ demoOrchestrator.providers Source.semantic_scholar = none
    ∧ c2Query.sources.Nodup
    ∧ Source.semantic_scholar ∉ dispatchedSources demoOrchestrator c2Query :=
  ⟨by simp [c2Query], by simp [demoOrchestrator, registeredSources], by decide,
    (C2_amended_silent_skip demoOrchestrator c2Query 2026 Source.semantic_scholar
      (by simp [c2Query]) (by simp [demoOrchestrator, registeredSources]) (by decide)).1⟩

/-- C3: when provider A raises and provider B returns records, `search`
returns normally for either completion order — the papers are B's
deduplicated (and ranked) records, the error map holds exactly one entry
keyed by A's source value with the wrapped message, A contributes an empty
record list, and A still counts as searched. -/
theorem C3_partial_failure (A B : Source) (hAB : A ≠ B) (m : String) (bs : List Paper)
    (P : Source → Option Provider)
    (hPA : P A = some (fun _ => Except.error m))
    (hPB : P B = some (fun _ => Except.ok bs))
    (q : SearchQuery) (order : List Source)
    (horder : order = [A, B] ∨ order = [B, A]) (y : Int) :
    search ⟨P⟩ q order y
      = Except.ok
          { query := q
            papers := rankPapers y q (deduplicate defaultThreshold bs)
            total_found := bs.length
            sources_searched := order
            search_time := 0
            errors := [(A.value, "Search failed: " ++ m)] }
      ∧ (A, ([] : List Paper)) ∈ (collect ⟨P⟩ q order).1
      ∧ A ∈ order := by
  have hsA : searchSource ⟨P⟩ A q = Except.error ("Search failed: " ++ m) := by
    simp [searchSource, hPA]
  have hsB : searchSource ⟨P⟩ B q = Except.ok bs := by
    simp [searchSource, hPB]
  have huA : unitPapers ⟨P⟩ q A = [] := by simp [unitPapers, hsA]
  have huB : unitPapers ⟨P⟩ q B = bs := by simp [unitPapers, hsB]
  have hueA : unitError ⟨P⟩ q A = some (A.value, "Search failed: " ++ m) := by
    simp [unitError, hsA]
  have hueB : unitError ⟨P⟩ q B = none := by simp [unitError, hsB]
  rcases horder with h | h <;> rw [h]
  · have hc := collect_eq_of_nodup ⟨P⟩ q [A, B] (by simp [hAB])
    refine ⟨?_, ?_, by simp⟩
    · unfold search
      rw [hc]
      simp only [List.map_cons, List.map_nil, List.filterMap_cons, huA, huB, hueA, hueB]
      simp
    · rw [hc]
      simp [huA]
  · have hc := collect_eq_of_nodup ⟨P⟩ q [B, A] (by simp [Ne.symm hAB])
    refine ⟨?_, ?_, by simp⟩
    · unfold search
      rw [hc]
      simp only [List.map_cons, List.map_nil, List.filterMap_cons, huA, huB, hueA, hueB]
      simp
    · rw [hc]
      simp [huA]

/-- Witness providers for C3: pubmed fails, arxiv returns one record. -/
noncomputable def c3Providers : Source → Option Provider :=
  fun s =>
    if s = Source.pubmed then some (fun _ => Except.error "boom")
    else if s = Source.arxiv then some (fun _ => Except.ok [c6Paper])
    else none

/-- C3 witness at a concrete provider pair and completion order. -/
theorem C3_partial_failure_witness :
    search ⟨c3Providers⟩ { query := "x", sources := [Source.pubmed, Source.arxiv] }
        [Source.arxiv, Source.pubmed] 2026
      = Except.ok
          { query := { query := "x", sources := [Source.pubmed, Source.arxiv] }
            papers := rankPapers 2026 { query := "x", sources := [Source.pubmed, Source.arxiv] }
              (deduplicate defaultThreshold [c6Paper])
            total_found := 1
            sources_searched := [Source.arxiv, Source.pubmed]
            search_time := 0
            errors := [(Source.pubmed.value, "Search failed: " ++ "boom")] }
      ∧ (Source.pubmed, ([] : List Paper))
          ∈ (collect ⟨c3Providers⟩ { query := "x", sources := [Source.pubmed, Source.arxiv] }
              [Source.arxiv, Source.pubmed]).1
      ∧ Source.pubmed ∈ [Source.arxiv, Source.pubmed] :=
  C3_partial_failure Source.pubmed Source.arxiv (by decide) "boom" [c6Paper] c3Providers
    (by simp [c3Providers]) (by simp [c3Providers])
    { query := "x", sources := [Source.pubmed, Source.arxiv] }
    [Source.arxiv, Source.pubmed] (Or.inr rfl) 2026

/-- C8: the result's `total_found` is the sum of the raw record counts the
completed units returned, computed before deduplication (failed units
contribute zero), while the final paper list is the deduplicated (then
ranked) list.  The `Nodup` hypothesis is the §3 reading of the requested
sources as a set. -/
theorem C8_total_found (O : SearchOrchestrator) (q : SearchQuery) (order : List Source)
    (y : Int) (hnd : order.Nodup) :
    ∀ r, search O q order y = Except.ok r →
      r.total_found = (order.map (fun s => (unitPapers O q s).length)).sum
      ∧ r.papers.length
        = (deduplicate defaultThreshold ((order.map (unitPapers O q)).flatten)).length := by
  intro r hr
  have hc := collect_eq_of_nodup O q order hnd
  unfold search at hr
  injection hr with hrec
  subst hrec
  constructor
  · show ((collect O q order).1.map (fun kv => kv.2.length)).sum = _
    rw [hc]
    rw [List.map_map]
    rfl
  · show (rankPapers y q _).length = _
    rw [rankPapers_length, hc]
    rw [List.map_map]
    rfl

namespace LitSearch

/-- Witness paper constructor for C8: a record with a given DOI. -/
def mkDoiPaper (t d : String) : Paper := { title := t, doi := some d, sources := [.pubmed] }

/-- Witness providers for C8: pubmed returns five records, arxiv returns
three, two of which duplicate pubmed DOIs. -/
def c8Providers : Source → Option Provider :=
  fun s =>
    if s = Source.pubmed then
      some (fun _ => Except.ok
        [mkDoiPaper "P one" "d1", mkDoiPaper "P two" "d2", mkDoiPaper "P three" "d3",
          mkDoiPaper "P four" "d4", mkDoiPaper "P five" "d5"])
    else if s = Source.arxiv then
      some (fun _ => Except.ok
        [mkDoiPaper "A one" "d1", mkDoiPaper "A two" "d2", mkDoiPaper "A six" "d6"])
    else none

/-- Witness query for C8. -/
def c8Query : SearchQuery := { query := "x", sources := [.pubmed, .arxiv] }

end LitSearch

/-- C8 witness: raw counts 5 + 3 give `total_found = 8` while the final paper
list has 6 records after merging the 2 cross-source duplicates. -/
theorem C8_total_found_witness :
    ([Source.pubmed, Source.arxiv] : List Source).Nodup
    ∧ (search ⟨c8Providers⟩ c8Query [Source.pubmed, Source.arxiv] 2026).toOption.map
        (fun r => (r.total_found, r.papers.length)) = some (8, 6) := by
  constructor
  · decide
  · obtain ⟨e1, e2⟩ := C8_total_found ⟨c8Providers⟩ c8Query [Source.pubmed, Source.arxiv] 2026
      (by decide) _ rfl
    have h1 : (([Source.pubmed, Source.arxiv].map
        (fun s => (unitPapers ⟨c8Providers⟩ c8Query s).length)).sum) = 8 := by rfl
    have h2 : (deduplicate defaultThreshold
        (([Source.pubmed, Source.arxiv].map
          (unitPapers ⟨c8Providers⟩ c8Query)).flatten)).length = 6 := by rfl
    unfold search
    simp only [Except.toOption, Option.map_some]
    refine congrArg some ?_
    refine Prod.ext ?_ ?_
    · exact e1.trans h1
    · exact e2.trans h2
